import Mathlib

/-!
Verification development for the Copilot Direct Data Access pipeline
(copilot_dda_complete.py together with the reload path of data_explorer.py).

The pipeline is shallowly embedded: a data frame is a list of association-list
rows together with a column list, the network and filesystem are an explicit
oracle (`World`) and an event trace, and every pandas operation the claims
touch (concat, groupby/size, value_counts, idxmax, mode, agg, to_csv/read_csv,
to_datetime) is given an executable Lean definition mirroring its documented
behaviour on the values this program feeds it.  Missing cells model NaN and
are dropped by the counting operations, as pandas does; NaT propagation is not
modelled, so a timestamp that fails to parse is a hard error, matching the
uncaught exception the script would die with.
-/

/-- Calendar date as parsed from a YYYY-MM-DD string. -/
structure Date where
  year : Nat
  month : Nat
  day : Nat
  deriving DecidableEq, Repr

/-- Timestamp with second precision, the contents of the hitdttm column. -/
structure Timestamp where
  date : Date
  hour : Nat
  minute : Nat
  second : Nat
  deriving DecidableEq, Repr

/-- Gregorian leap-year rule, as used by datetime. -/
def isLeap (y : Nat) : Bool :=
  y % 4 == 0 && (y % 100 != 0 || y % 400 == 0)

/-- Number of days in a month, as validated by the datetime constructor. -/
def daysInMonth (y m : Nat) : Nat :=
  if m = 2 then (if isLeap y then 29 else 28)
  else if m = 4 ∨ m = 6 ∨ m = 9 ∨ m = 11 then 30
  else 31

/-- Days since 1970-01-01 for a civil date (Hinnant's algorithm, year ≥ 0). -/
def daysFromCivil (y m d : Nat) : Int :=
  let y2 := if m ≤ 2 then y - 1 else y
  let era := y2 / 400
  let yoe := y2 - era * 400
  let mp := if 2 < m then m - 3 else m + 9
  let doy := (153 * mp + 2) / 5 + d - 1
  let doe := yoe * 365 + yoe / 4 - yoe / 100 + doy
  (era * 146097 + doe : Int) - 719468

def Date.epochDays (d : Date) : Int := daysFromCivil d.year d.month d.day

/-- Seconds since the epoch of midnight of the date: the model of
datetime.strptime(s, "%Y-%m-%d").timestamp() used by _validate_date_range. -/
def Date.epoch (d : Date) : Int := 86400 * d.epochDays

def dayNames : List String :=
  ["Monday", "Tuesday", "Wednesday", "Thursday", "Friday", "Saturday", "Sunday"]

/-- pandas Series.dt.day_name() for the date part (1970-01-01 was a Thursday). -/
def dayName (d : Date) : String :=
  dayNames.getD ((d.epochDays + 3) % 7).toNat ""

/-- The character for a decimal digit. -/
def digitChar (n : Nat) : Char := Char.ofNat (48 + n % 10)

/-- The value of a decimal digit character. -/
def digitVal (c : Char) : Option Nat :=
  if 48 ≤ c.toNat ∧ c.toNat ≤ 57 then some (c.toNat - 48) else none

/-- A number rendered as exactly two digits (zero padded), for n ≤ 99. -/
def pad2 (n : Nat) : List Char := [digitChar (n / 10), digitChar n]

/-- A number rendered as exactly four digits (zero padded), for n ≤ 9999. -/
def pad4 (n : Nat) : List Char :=
  [digitChar (n / 1000), digitChar (n / 100), digitChar (n / 10), digitChar n]

/-- Read exactly two digits. -/
def parse2 : List Char → Option (Nat × List Char)
  | c1 :: c2 :: rest =>
    match digitVal c1, digitVal c2 with
    | some d1, some d2 => some (10 * d1 + d2, rest)
    | _, _ => none
  | _ => none

/-- Read exactly four digits (strptime %Y matches exactly four). -/
def parse4 : List Char → Option (Nat × List Char)
  | c1 :: c2 :: c3 :: c4 :: rest =>
    match digitVal c1, digitVal c2, digitVal c3, digitVal c4 with
    | some d1, some d2, some d3, some d4 =>
      some (1000 * d1 + 100 * d2 + 10 * d3 + d4, rest)
    | _, _, _, _ => none
  | _ => none

/-- Consume one expected character. -/
def expectChar (c : Char) : List Char → Option (List Char)
  | c1 :: rest => if c1 = c then some rest else none
  | [] => none

/-- strptime %m / %d field: the two-digit form is taken when its value lies in
[1, hi] (leading zero allowed), otherwise a single digit 1-9 is taken, exactly
like the alternation in CPython's _strptime regular expression. -/
def parseField (hi : Nat) : List Char → Option (Nat × List Char)
  | c1 :: c2 :: rest =>
    match digitVal c1, digitVal c2 with
    | some d1, some d2 =>
      if 1 ≤ 10 * d1 + d2 ∧ 10 * d1 + d2 ≤ hi then some (10 * d1 + d2, rest)
      else if 1 ≤ d1 ∧ d1 ≤ 9 then some (d1, c2 :: rest)
      else none
    | some d1, none =>
      if 1 ≤ d1 ∧ d1 ≤ 9 then some (d1, c2 :: rest) else none
    | none, _ => none
  | [c1] =>
    match digitVal c1 with
    | some d1 => if 1 ≤ d1 ∧ d1 ≤ 9 then some (d1, ([] : List Char)) else none
    | none => none
  | [] => none

/-- datetime.strptime(s, "%Y-%m-%d"): four-digit year, one-or-two-digit month
and day, the whole string consumed, and the date itself valid (year ≥ 1, day
within the month). -/
def parseYMDList (cs : List Char) : Option Date :=
  match parse4 cs with
  | none => none
  | some (y, r1) =>
    match expectChar '-' r1 with
    | none => none
    | some r2 =>
      match parseField 12 r2 with
      | none => none
      | some (m, r3) =>
        match expectChar '-' r3 with
        | none => none
        | some r4 =>
          match parseField 31 r4 with
          | none => none
          | some (d, r5) =>
            if r5 = [] ∧ 1 ≤ y ∧ 1 ≤ d ∧ d ≤ daysInMonth y m then
              some ⟨y, m, d⟩
            else none

def parseYMD (s : String) : Option Date := parseYMDList s.data

/-- The validation errors _validate_date_range can report. -/
inductive DateError where
  | parseError
  | sinceAfterUntil
  | rangeTooLong
  | sinceTooOld
  deriving DecidableEq, Repr

/-- _validate_date_range: parse both dates, then check since ≤ until, span at
most 14 days, and since at most 365 days before now (now in epoch seconds). -/
def validateDateRange (since untilStr : String) (now : Int) : Except DateError Unit :=
  match parseYMD since, parseYMD untilStr with
  | some ds, some du =>
    if du.epoch < ds.epoch then .error .sinceAfterUntil
    else if 14 * 86400 < du.epoch - ds.epoch then .error .rangeTooLong
    else if 365 * 86400 < now - ds.epoch then .error .sinceTooOld
    else .ok ()
  | _, _ => .error .parseError

/-- Modelled from the spec's words, for the C1 refinement comparison only: the
window is valid when both dates parse in YYYY-MM-DD format, since is not after
until, the span is at most 14 days, and since is at most 365 days in the past. -/
def SpecWindowValid (since untilStr : String) (now : Int) : Prop :=
  ∃ ds du, parseYMD since = some ds ∧ parseYMD untilStr = some du ∧
    ds.epoch ≤ du.epoch ∧ du.epoch - ds.epoch ≤ 14 * 86400 ∧
    now - ds.epoch ≤ 365 * 86400

/-- Timestamp rendered as "YYYY-MM-DD HH:MM:SS", the form in which pandas
writes a datetime column to CSV. -/
def renderDateList (d : Date) : List Char :=
  pad4 d.year ++ ('-' :: (pad2 d.month ++ ('-' :: pad2 d.day)))

def renderTsList (t : Timestamp) : List Char :=
  renderDateList t.date ++
    (' ' :: (pad2 t.hour ++ (':' :: (pad2 t.minute ++ (':' :: pad2 t.second)))))

def renderTimestamp (t : Timestamp) : String := String.mk (renderTsList t)

/-- Field bounds under which a timestamp denotes a real pandas datetime value. -/
def Timestamp.valid (t : Timestamp) : Bool :=
  1 ≤ t.date.year && t.date.year ≤ 9999 &&
  1 ≤ t.date.month && t.date.month ≤ 12 &&
  1 ≤ t.date.day && t.date.day ≤ daysInMonth t.date.year t.date.month &&
  t.hour ≤ 23 && t.minute ≤ 59 && t.second ≤ 59

/-- pd.to_datetime on the canonical "YYYY-MM-DD HH:MM:SS" string form. -/
def parseTsList (cs : List Char) : Option Timestamp :=
  match parse4 cs with
  | none => none
  | some (y, r1) =>
    match expectChar '-' r1 with
    | none => none
    | some r2 =>
      match parse2 r2 with
      | none => none
      | some (mo, r3) =>
        match expectChar '-' r3 with
        | none => none
        | some r4 =>
          match parse2 r4 with
          | none => none
          | some (d, r5) =>
            match expectChar ' ' r5 with
            | none => none
            | some r6 =>
              match parse2 r6 with
              | none => none
              | some (h, r7) =>
                match expectChar ':' r7 with
                | none => none
                | some r8 =>
                  match parse2 r8 with
                  | none => none
                  | some (mi, r9) =>
                    match expectChar ':' r9 with
                    | none => none
                    | some r10 =>
                      match parse2 r10 with
                      | none => none
                      | some (s, r11) =>
                        let t : Timestamp := ⟨⟨y, mo, d⟩, h, mi, s⟩
                        if r11 = [] ∧ t.valid then some t else none

def parseTimestamp (s : String) : Option Timestamp := parseTsList s.data

/-- A cell value.  A missing cell (lookup miss) models NaN. -/
inductive Val where
  | str : String → Val
  | int : Int → Val
  | time : Timestamp → Val
  | date : Date → Val
  deriving DecidableEq, Repr

/-- A row of a data frame: association list from column name to value. -/
abbrev Row := List (String × Val)

def getCell : Row → String → Option Val
  | [], _ => none
  | p :: rest, c => if p.1 = c then some p.2 else getCell rest c

def setCell : Row → String → Val → Row
  | [], c, v => [(c, v)]
  | p :: rest, c, v => if p.1 = c then (c, v) :: rest else p :: setCell rest c v

/-- An in-memory table: its column list and its rows. -/
structure DF where
  cols : List String
  rows : List Row
  deriving DecidableEq, Repr

/-- Distinct values in order of first appearance (pandas unique), with an
accumulator of values already seen. -/
def firstDedupAux {α : Type} [DecidableEq α] (seen : List α) : List α → List α
  | [] => []
  | x :: xs =>
    if x ∈ seen then firstDedupAux seen xs else x :: firstDedupAux (x :: seen) xs

def firstDedup {α : Type} [DecidableEq α] (l : List α) : List α := firstDedupAux [] l

/-- The non-null string values of a column, in row order. -/
def strColVals (df : DF) (c : String) : List String :=
  df.rows.filterMap (fun r =>
    match getCell r c with
    | some (Val.str s) => some s
    | _ => none)

/-- The non-null integer values of a column, in row order. -/
def intColVals (df : DF) (c : String) : List Int :=
  df.rows.filterMap (fun r =>
    match getCell r c with
    | some (Val.int n) => some n
    | _ => none)

/-- pandas value_counts: the distinct values with their multiplicities, stably
sorted by count descending, so ties keep first-appearance order. -/
def countsDesc (vs : List String) : List (String × Nat) :=
  ((firstDedup vs).map (fun v => (v, vs.count v))).insertionSort
    (fun a b => b.2 ≤ a.2)

def valueCounts (df : DF) (c : String) : List (String × Nat) :=
  countsDesc (strColVals df c)

/-- groupby(c).size().sort_index() for an integer column: distinct keys with
their multiplicities, sorted by key ascending. -/
def groupSizesAsc (df : DF) (c : String) : List (Int × Nat) :=
  let vs := intColVals df c
  ((firstDedup vs).map (fun v => (v, vs.count v))).insertionSort
    (fun a b => a.1 ≤ b.1)

/-- Series.idxmax, tail of the scan: keep the current best, replace it only on
a strictly larger value, so the first occurrence of the maximum wins. -/
def idxmaxAux {κ : Type} (k : κ) (c : Nat) : List (κ × Nat) → κ
  | [] => k
  | p :: rest => if c < p.2 then idxmaxAux p.1 p.2 rest else idxmaxAux k c rest

/-- Series.idxmax: the index of the first occurrence of the maximal value. -/
def idxmax {κ : Type} : List (κ × Nat) → Option κ
  | [] => none
  | p :: rest => some (idxmaxAux p.1 p.2 rest)

/-- The exceptions of the embedded pandas operations. -/
inductive PyErr where
  | keyError : List String → PyErr
  | valueError : String → PyErr
  deriving DecidableEq, Repr

/-- Decidable equality of embedded fallible results. -/
def exceptDecEq {ε α : Type} [DecidableEq ε] [DecidableEq α] :
    DecidableEq (Except ε α)
  | .ok a, .ok b =>
    if h : a = b then isTrue (by rw [h])
    else isFalse (by intro hc; cases hc; exact h rfl)
  | .ok _, .error _ => isFalse (by intro hc; cases hc)
  | .error _, .ok _ => isFalse (by intro hc; cases hc)
  | .error e, .error f =>
    if h : e = f then isTrue (by rw [h])
    else isFalse (by intro hc; cases hc; exact h rfl)

instance {ε α : Type} [DecidableEq ε] [DecidableEq α] : DecidableEq (Except ε α) :=
  exceptDecEq

/-- pd.to_datetime on one cell.  A stored datetime is passed through (pandas
datetimes are valid by construction, so an invalid field combination denotes
no real value); a string is parsed in the canonical format. -/
def toDatetime : Val → Option Timestamp
  | Val.time t => if t.valid then some t else none
  | Val.str s => parseTimestamp s
  | _ => none

/-- Option-valued traversal of a list (all-or-nothing, in order). -/
def mapOption {α β : Type} (F : α → Option β) : List α → Option (List β)
  | [] => some []
  | a :: l =>
    match F a, mapOption F l with
    | some b, some bs => some (b :: bs)
    | _, _ => none

/-- Lines 195-198 of collect_data, on one row: re-parse hitdttm and attach the
derived hour, day_of_week and date cells. -/
def deriveRow (r : Row) : Option Row :=
  match getCell r "hitdttm" with
  | none => none
  | some v =>
    match toDatetime v with
    | none => none
    | some t =>
      some (setCell (setCell (setCell (setCell r "hitdttm" (Val.time t))
        "hour" (Val.int t.hour)) "day_of_week" (Val.str (dayName t.date)))
        "date" (Val.date t.date))

def addCol (cols : List String) (c : String) : List String :=
  if c ∈ cols then cols else cols ++ [c]

/-- Lines 195-198 of collect_data on the whole table: requires the hitdttm
column, re-parses it, and appends the three derived columns. -/
def deriveTime (df : DF) : Except PyErr DF :=
  if "hitdttm" ∈ df.cols then
    match mapOption deriveRow df.rows with
    | some rows =>
      .ok ⟨addCol (addCol (addCol df.cols "hour") "day_of_week") "date", rows⟩
    | none => .error (PyErr.valueError "to_datetime")
  else .error (PyErr.keyError ["hitdttm"])

def unionCols (a b : List String) : List String :=
  a ++ b.filter (fun c => c ∉ a)

/-- pd.concat(dfs, ignore_index=True): rows appended in order, no
deduplication; the column list is the ordered union. -/
def concatDFs (dfs : List DF) : DF :=
  ⟨dfs.foldl (fun acc d => unionCols acc d.cols) [], dfs.flatMap (fun d => d.rows)⟩

/-- One entry of the usage-export manifest: a date and its blob URIs
(blobs are identified by number here). -/
structure ManifestEntry where
  date : String
  blob_uris : List Nat
  deriving DecidableEq, Repr

/-- The run's environment: configuration, clock, and the network oracle. -/
structure World where
  tokenPresent : Bool
  since : String
  untilStr : String
  now : Int
  probeOk : Bool
  manifest : Except Nat (List ManifestEntry)
  blobs : Nat → Except String DF

/-- Observable side effects of the run, in order. -/
inductive Event where
  | envRead
  | mkdir : String → Event
  | netProbe
  | netManifest
  | netBlob : Nat → Event
  | fileWrite : String → Event
  | logDateError : DateError → Event
  | logError : String → Event
  | logWarn : String → Event
  | logBlobError : Nat → Event
  deriving DecidableEq, Repr

def isNetworkEvent : Event → Bool
  | .netProbe => true
  | .netManifest => true
  | .netBlob _ => true
  | _ => false

def isFsOutputEvent : Event → Bool
  | .mkdir _ => true
  | .fileWrite _ => true
  | _ => false

/-- The blob URIs of the manifest, in fetch order (manifest order). -/
def manifestUris (entries : List ManifestEntry) : List Nat :=
  entries.flatMap (fun e => e.blob_uris)

/-- The chunks that fetched and decoded successfully, in fetch order
(the blob loop of collect_data, lines 174-188: failures are skipped). -/
def successChunks (w : World) (entries : List ManifestEntry) : List DF :=
  (manifestUris entries).filterMap (fun u => (w.blobs u).toOption)

/-- The trace of the blob loop: one request per URI, one error log per
failure. -/
def blobEvents (w : World) (entries : List ManifestEntry) : List Event :=
  (manifestUris entries).flatMap (fun u =>
    match w.blobs u with
    | .ok _ => [Event.netBlob u]
    | .error _ => [Event.netBlob u, Event.logBlobError u])

/-- The outcome of collect_data: the table (self.df), the returned flag, an
uncaught exception if one escaped, and the event trace. -/
structure CollectResult where
  df : Option DF
  ok : Bool
  err : Option PyErr
  events : List Event
  deriving DecidableEq, Repr

/-- collect_data (lines 116-213): validate the window, probe the API, fetch
the manifest, fetch every blob skipping failures, concatenate, derive the
time columns, save the raw CSV, and log the summary (which reads the
user_login column). -/
def collectData (w : World) : CollectResult :=
  match validateDateRange w.since w.untilStr w.now with
  | .error e => ⟨none, false, none, [Event.logDateError e]⟩
  | .ok _ =>
    if w.probeOk then
      match w.manifest with
      | .error _ =>
        ⟨none, false, none, [Event.netProbe, Event.netManifest, Event.logError "http"]⟩
      | .ok entries =>
        let ev := Event.netProbe :: Event.netManifest :: blobEvents w entries
        match successChunks w entries with
        | [] => ⟨none, false, none, ev ++ [Event.logWarn "no data"]⟩
        | d :: ds =>
          match deriveTime (concatDFs (d :: ds)) with
          | .error e => ⟨none, false, some e, ev⟩
          | .ok df =>
            if "user_login" ∈ df.cols then
              ⟨some df, true, none, ev ++ [Event.fileWrite "data/raw_copilot_data.csv"]⟩
            else
              ⟨some df, false, some (PyErr.keyError ["user_login"]),
                ev ++ [Event.fileWrite "data/raw_copilot_data.csv"]⟩
    else ⟨none, false, none, [Event.netProbe, Event.logError "probe"]⟩

/-- The figures of the text report that the claims inspect. -/
structure Report where
  totalRecords : Nat
  uniqueUsers : Nat
  uniqueSessions : Option Nat
  topUsers : List (String × Nat)
  featureUsage : Option (List (String × Nat))
  topLanguages : Option (List (String × Nat))
  peakHour : Int
  peakHourCount : Nat
  peakDay : String
  peakDayCount : Nat
  codeMetrics : Option (Int × Int)
  deriving DecidableEq, Repr

def sumIntCol (df : DF) (c : String) : Int := (intColVals df c).sum

/-- The report record generate_summary_report assembles once the peak hour
and peak day are known. -/
def buildReport (df : DF) (ph : Int) (pd : String) : Report :=
  { totalRecords := df.rows.length
    uniqueUsers := (firstDedup (strColVals df "user_login")).length
    uniqueSessions :=
      if "message_id" ∈ df.cols then
        some (firstDedup (strColVals df "message_id")).length
      else none
    topUsers := (valueCounts df "user_login").take 10
    featureUsage :=
      if "label" ∈ df.cols then some (valueCounts df "label") else none
    topLanguages :=
      if "language" ∈ df.cols then some ((valueCounts df "language").take 10)
      else none
    peakHour := ph
    peakHourCount :=
      (((groupSizesAsc df "hour").find? (fun p => p.1 == ph)).map
        (fun p => p.2)).getD 0
    peakDay := pd
    peakDayCount :=
      (((valueCounts df "day_of_week").find? (fun p => p.1 == pd)).map
        (fun p => p.2)).getD 0
    codeMetrics :=
      if "lines" ∈ df.cols ∧ "chars" ∈ df.cols then
        some (sumIntCol df "lines", sumIntCol df "chars")
      else none }

/-- generate_summary_report (lines 215-314): returns None on an empty table,
raises on a missing required column, omits the optional sections when their
column is absent, and computes the peak hour and day with idxmax. -/
def generateSummaryReport (dfOpt : Option DF) : Except PyErr (Option Report) :=
  match dfOpt with
  | none => .ok none
  | some df =>
    if df.rows.isEmpty then .ok none
    else if "hitdttm" ∉ df.cols then .error (PyErr.keyError ["hitdttm"])
    else if "user_login" ∉ df.cols then .error (PyErr.keyError ["user_login"])
    else if "hour" ∉ df.cols then .error (PyErr.keyError ["hour"])
    else if "day_of_week" ∉ df.cols then .error (PyErr.keyError ["day_of_week"])
    else
      match idxmax (groupSizesAsc df "hour"), idxmax (valueCounts df "day_of_week") with
      | some ph, some pd => .ok (some (buildReport df ph pd))
      | _, _ => .error (PyErr.valueError "idxmax of an empty sequence")

/-- create_visualizations (lines 316-353): skips silently on an empty table,
needs the always-derived columns, and renders the language panel set only
when the language column is present.  The chart contents are out of scope;
only the files written are recorded. -/
def createVisualizations (dfOpt : Option DF) : Except PyErr (List Event) :=
  match dfOpt with
  | none => .ok []
  | some df =>
    if df.rows.isEmpty then .ok []
    else if "user_login" ∉ df.cols then .error (PyErr.keyError ["user_login"])
    else if "date" ∉ df.cols then .error (PyErr.keyError ["date"])
    else if "hour" ∉ df.cols then .error (PyErr.keyError ["hour"])
    else if "day_of_week" ∉ df.cols then .error (PyErr.keyError ["day_of_week"])
    else .ok
      ([Event.fileWrite "plots/user_engagement.png",
        Event.fileWrite "plots/feature_usage.png"] ++
       (if "language" ∈ df.cols then [Event.fileWrite "plots/language_analysis.png"]
        else []) ++
       [Event.fileWrite "plots/time_patterns.png",
        Event.fileWrite "plots/environment_analysis.png"])

/-- One row of user_activity_summary.csv. -/
structure UserRow where
  user : String
  total_interactions : Nat
  first_interaction : Option Timestamp
  last_interaction : Option Timestamp
  total_lines : Int
  total_chars : Int
  primary_language : String
  deriving DecidableEq, Repr

/-- The rows of one user's group under groupby('user_login'). -/
def rowsOfUser (df : DF) (u : String) : List Row :=
  df.rows.filter (fun r => decide (getCell r "user_login" = some (Val.str u)))

def rowTimes (rs : List Row) : List Timestamp :=
  rs.filterMap (fun r =>
    match getCell r "hitdttm" with
    | some (Val.time t) => some t
    | _ => none)

def rowInts (rs : List Row) (c : String) : List Int :=
  rs.filterMap (fun r =>
    match getCell r c with
    | some (Val.int n) => some n
    | _ => none)

def rowStrs (rs : List Row) (c : String) : List String :=
  rs.filterMap (fun r =>
    match getCell r c with
    | some (Val.str s) => some s
    | _ => none)

/-- Chronological position of a timestamp, in seconds. -/
def tsVal (t : Timestamp) : Int :=
  t.date.epoch + 3600 * t.hour + 60 * t.minute + t.second

/-- Series.min on a datetime column (None on an all-null group). -/
def minTs : List Timestamp → Option Timestamp
  | [] => none
  | t :: ts => some (ts.foldl (fun a b => if tsVal b < tsVal a then b else a) t)

/-- Series.max on a datetime column. -/
def maxTs : List Timestamp → Option Timestamp
  | [] => none
  | t :: ts => some (ts.foldl (fun a b => if tsVal a < tsVal b then b else a) t)

def maxCount (vs : List String) : Nat :=
  ((firstDedup vs).map (fun v => vs.count v)).foldr max 0

/-- Series.mode().iloc[0]: the smallest value among those of maximal
frequency (mode returns its answers sorted ascending). -/
def modeMin (vs : List String) : Option String :=
  match (firstDedup vs).filter (fun v => vs.count v == maxCount vs) with
  | [] => none
  | c :: cs => some (cs.foldl (fun a b => if b < a then b else a) c)

/-- Line 618: x.mode().iloc[0] if not x.mode().empty else 'unknown'. -/
def modeOrUnknown (vs : List String) : String := (modeMin vs).getD "unknown"

/-- Lines 614-620: the aggregation row of one user group. -/
def aggUser (df : DF) (u : String) : UserRow :=
  let rs := rowsOfUser df u
  { user := u
    total_interactions := (rowTimes rs).length
    first_interaction := minTs (rowTimes rs)
    last_interaction := maxTs (rowTimes rs)
    total_lines := (rowInts rs "lines").sum
    total_chars := (rowInts rs "chars").sum
    primary_language := modeOrUnknown (rowStrs rs "language") }

/-- The group keys of groupby('user_login'): distinct users, sorted. -/
def sortedUsers (df : DF) : List String :=
  (firstDedup (strColVals df "user_login")).insertionSort (fun a b => a ≤ b)

/-- The table written to user_activity_summary.csv. -/
def userActivitySummary (df : DF) : List UserRow :=
  (sortedUsers df).map (aggUser df)

/-- The outcome of export_detailed_data: the per-user table if it was built,
the files written, and an uncaught exception if one escaped. -/
structure ExportResult where
  userSummary : Option (List UserRow)
  events : List Event
  err : Option PyErr
  deriving DecidableEq, Repr

/-- The agg-dict keys of the per-user export that are absent from the table:
pandas raises KeyError on them even though the dict supplies fallback
lambdas for lines and chars. -/
def missingAggCols (df : DF) : List String :=
  (["hitdttm", "lines", "chars", "language"]).filter (fun c => c ∉ df.cols)

/-- export_detailed_data (lines 601-645): returns early on an empty table;
the per-user agg references hitdttm, lines, chars and language
unconditionally, so any of them missing raises KeyError; the language
summary is guarded by column presence; the daily summary groups by date. -/
def exportDetailedData (dfOpt : Option DF) : ExportResult :=
  match dfOpt with
  | none => ⟨none, [], none⟩
  | some df =>
    if df.rows.isEmpty then ⟨none, [], none⟩
    else if "user_login" ∉ df.cols then ⟨none, [], some (PyErr.keyError ["user_login"])⟩
    else if missingAggCols df ≠ [] then ⟨none, [], some (PyErr.keyError (missingAggCols df))⟩
    else
      let ev1 := [Event.fileWrite "data/user_activity_summary.csv"]
      let ev2 := ev1 ++
        (if "language" ∈ df.cols then [Event.fileWrite "data/language_summary.csv"]
         else [])
      if "date" ∉ df.cols then
        ⟨some (userActivitySummary df), ev2, some (PyErr.keyError ["date"])⟩
      else
        ⟨some (userActivitySummary df),
          ev2 ++ [Event.fileWrite "data/daily_activity_summary.csv"], none⟩

/-- Step 2 as a state transformer on self.df: the method reads the table and
never rebinds or mutates it. -/
def reporterStep (s : Option DF) : Option DF × Except PyErr (Option Report) :=
  (s, generateSummaryReport s)

/-- Step 3 as a state transformer on self.df. -/
def vizStep (s : Option DF) : Option DF × Except PyErr (List Event) :=
  (s, createVisualizations s)

/-- Step 4 as a state transformer on self.df. -/
def exportStep (s : Option DF) : Option DF × ExportResult :=
  (s, exportDetailedData s)

/-- The outcome of run_complete_analysis. -/
structure RunResult where
  result : Except PyErr Bool
  df : Option DF
  events : List Event
  deriving DecidableEq, Repr

/-- run_complete_analysis (lines 647-694): collect, then report, visualize
and export in order; a False from collect_data stops the pipeline, an
uncaught exception anywhere propagates. -/
def runCompleteAnalysis (w : World) : RunResult :=
  let c := collectData w
  match c.err with
  | some e => ⟨.error e, c.df, c.events⟩
  | none =>
    if c.ok then
      let s1 := (reporterStep c.df).1
      match (reporterStep c.df).2 with
      | .error e => ⟨.error e, s1, c.events⟩
      | .ok repOpt =>
        let evR := match repOpt with
          | some _ => [Event.fileWrite "reports/summary_report.txt"]
          | none => []
        let s2 := (vizStep s1).1
        match (vizStep s1).2 with
        | .error e => ⟨.error e, s2, c.events ++ evR⟩
        | .ok evV =>
          let s3 := (exportStep s2).1
          let ex := (exportStep s2).2
          match ex.err with
          | some e => ⟨.error e, s3, c.events ++ evR ++ evV ++ ex.events⟩
          | none => ⟨.ok true, s3, c.events ++ evR ++ evV ++ ex.events⟩
    else ⟨.ok false, c.df, c.events⟩

/-- The whole process: __init__ reads the token (aborting before anything
else when it is absent), then creates the output directory tree, then runs
the pipeline; the exit code is 0 only on full success. -/
def runMain (w : World) : Nat × List Event :=
  if w.tokenPresent then
    let evI := [Event.envRead, Event.mkdir "output", Event.mkdir "plots",
      Event.mkdir "reports", Event.mkdir "data"]
    let r := runCompleteAnalysis w
    match r.result with
    | .ok true => (0, evI ++ r.events)
    | _ => (1, evI ++ r.events)
  else (1, [Event.envRead, Event.logError "GITHUB_TOKEN is not set"])

/-- One CSV cell as written by to_csv (NaN becomes the empty field). -/
def renderCell : Option Val → String
  | none => ""
  | some (Val.str s) => s
  | some (Val.int n) => toString n
  | some (Val.time t) => renderTimestamp t
  | some (Val.date d) => String.mk (renderDateList d)

/-- df.to_csv: the header line followed by one line of rendered cells per
row, in column order.  Field quoting is the CSV library's concern and is
modelled by keeping the cells as a list. -/
def writeCsv (df : DF) : List (List String) :=
  df.cols :: df.rows.map (fun r => df.cols.map (fun c => renderCell (getCell r c)))

/-- pd.read_csv as used by data_explorer (line 21): the first line is the
header, every cell comes back textual. -/
def readCsv : List (List String) → Option DF
  | [] => none
  | header :: rws =>
    some ⟨header, rws.map (fun cells => header.zip (cells.map Val.str))⟩

/-- Per row of the reloaded table: re-parse hitdttm (data_explorer line 22)
and recompute the derived hour, day-of-week and date values from it. -/
def reparsedTriples (df : DF) : Option (List (Val × Val × Val)) :=
  mapOption (fun r =>
    match getCell r "hitdttm" with
    | some v =>
      match toDatetime v with
      | some t => some (Val.int t.hour, Val.str (dayName t.date), Val.date t.date)
      | none => none
    | none => none) df.rows

/-- Per row of the table as written: the stored derived cells. -/
def storedTriples (df : DF) : Option (List (Val × Val × Val)) :=
  mapOption (fun r =>
    match getCell r "hour", getCell r "day_of_week", getCell r "date" with
    | some h, some d, some dt => some (h, d, dt)
    | _, _, _ => none) df.rows

/-- The full column schema of a usage blob, as consumed by the claims. -/
def chunkSchema : List String :=
  ["hitdttm", "user_login", "language", "lines", "chars"]

/-- A fetched row with the typed cells the pipeline relies on: a valid
timestamp, a string user, and integer line/char counts.  (The language cell
is deliberately untyped: every consumer of it tolerates arbitrary or missing
values.) -/
def goodRow (r : Row) : Bool :=
  (match getCell r "hitdttm" with
   | some (Val.time t) => t.valid
   | _ => false) &&
  (match getCell r "user_login" with
   | some (Val.str _) => true
   | _ => false) &&
  (match getCell r "lines" with
   | some (Val.int _) => true
   | _ => false) &&
  (match getCell r "chars" with
   | some (Val.int _) => true
   | _ => false)

/-- A well-formed blob chunk: the full schema and typed rows. -/
def goodChunk (d : DF) : Bool :=
  d.cols == chunkSchema && d.rows.all goodRow

/-- A row carrying a valid timestamp together with the derived cells the
Aggregator attaches to it. -/
def rowDerivedOk (r : Row) : Bool :=
  match getCell r "hitdttm" with
  | some (Val.time t) =>
    t.valid && (getCell r "hour" == some (Val.int t.hour)) &&
    (getCell r "day_of_week" == some (Val.str (dayName t.date))) &&
    (getCell r "date" == some (Val.date t.date))
  | _ => false

/-- The shape of the table the Aggregator hands downstream. -/
def derivedShape (df : DF) : Bool :=
  decide ("hitdttm" ∈ df.cols) && df.rows.all rowDerivedOk

/-- The language section of a successfully generated report. -/
def reportedLangSection (dfOpt : Option DF) : Option (Option (List (String × Nat))) :=
  match generateSummaryReport dfOpt with
  | .ok (some r) => some r.topLanguages
  | _ => none

/-- The unique-users figure of a successfully generated report. -/
def reportedUniqueUsers (dfOpt : Option DF) : Option Nat :=
  match generateSummaryReport dfOpt with
  | .ok (some r) => some r.uniqueUsers
  | _ => none

/-- The peak-hour and peak-day figures of a successfully generated report. -/
def reportedPeaks (dfOpt : Option DF) : Option (Int × Nat × String × Nat) :=
  match generateSummaryReport dfOpt with
  | .ok (some r) => some (r.peakHour, r.peakHourCount, r.peakDay, r.peakDayCount)
  | _ => none

/-- Fixture timestamp builder. -/
def mkTs (y mo d h mi s : Nat) : Timestamp := ⟨⟨y, mo, d⟩, h, mi, s⟩

/-- Fixture: a blob row carrying only hitdttm, user_login and language. -/
def mkRow3 (t : Timestamp) (u lang : String) : Row :=
  [("hitdttm", Val.time t), ("user_login", Val.str u), ("language", Val.str lang)]

/-- Fixture: a full-schema blob row. -/
def mkRow5 (t : Timestamp) (u lang : String) (ln ch : Int) : Row :=
  [("hitdttm", Val.time t), ("user_login", Val.str u), ("language", Val.str lang),
   ("lines", Val.int ln), ("chars", Val.int ch)]

/-- Fixture world for the C1 witness: a window with since after until. -/
def w1 : World :=
  { tokenPresent := true
    since := "2025-06-10"
    untilStr := "2025-06-01"
    now := Date.epoch ⟨2025, 6, 11⟩
    probeOk := true
    manifest := .ok []
    blobs := fun _ => .error "unreachable" }

/-- Fixture chunk for the C2 witness. -/
def chunk2 : DF :=
  ⟨chunkSchema, [mkRow5 (mkTs 2025 6 2 9 0 0) "alice" "python" 5 100]⟩

/-- Fixture world for the C2 witness: two blob URIs, the second one failing. -/
def w2 : World :=
  { tokenPresent := true
    since := "2025-06-01"
    untilStr := "2025-06-05"
    now := Date.epoch ⟨2025, 6, 6⟩
    probeOk := true
    manifest := .ok [⟨"2025-06-02", [0, 1]⟩]
    blobs := fun u => if u = 0 then .ok chunk2 else .error "network" }

/-- Fixture world for the C3 witness: dates present, zero blob URIs. -/
def w3 : World :=
  { tokenPresent := true
    since := "2025-06-01"
    untilStr := "2025-06-05"
    now := Date.epoch ⟨2025, 6, 6⟩
    probeOk := true
    manifest := .ok [⟨"2025-06-02", []⟩, ⟨"2025-06-03", []⟩]
    blobs := fun _ => .error "unreachable" }

/-- Fixture rows for the C4 table: full pipeline shape except language. -/
def row4a : Row :=
  [("hitdttm", Val.time (mkTs 2025 6 2 9 15 0)), ("user_login", Val.str "alice"),
   ("lines", Val.int 5), ("chars", Val.int 120), ("hour", Val.int 9),
   ("day_of_week", Val.str "Monday"), ("date", Val.date ⟨2025, 6, 2⟩)]

def row4b : Row :=
  [("hitdttm", Val.time (mkTs 2025 6 2 14 30 0)), ("user_login", Val.str "bob"),
   ("lines", Val.int 3), ("chars", Val.int 80), ("hour", Val.int 14),
   ("day_of_week", Val.str "Monday"), ("date", Val.date ⟨2025, 6, 2⟩)]

/-- Fixture: an aggregated table lacking the optional language column. -/
def df4 : DF :=
  ⟨["hitdttm", "user_login", "lines", "chars", "hour", "day_of_week", "date"],
   [row4a, row4b]⟩

/-- Fixture blob chunks for the C5 end-to-end scenario: two 3-row tables
with columns hitdttm (timestamp), user_login and language only. -/
def chunk5A : DF :=
  ⟨["hitdttm", "user_login", "language"],
   [mkRow3 (mkTs 2025 6 2 9 15 0) "alice" "python",
    mkRow3 (mkTs 2025 6 2 10 30 0) "bob" "go",
    mkRow3 (mkTs 2025 6 2 11 45 0) "alice" "python"]⟩

def chunk5B : DF :=
  ⟨["hitdttm", "user_login", "language"],
   [mkRow3 (mkTs 2025 6 3 9 5 0) "bob" "go",
    mkRow3 (mkTs 2025 6 3 14 20 0) "alice" "python",
    mkRow3 (mkTs 2025 6 3 16 0 0) "bob" "typescript"]⟩

/-- Fixture world for the C5 end-to-end scenario: one date entry with two
blob URIs, both fetching successfully. -/
def w5 : World :=
  { tokenPresent := true
    since := "2025-06-01"
    untilStr := "2025-06-10"
    now := Date.epoch ⟨2025, 6, 11⟩
    probeOk := true
    manifest := .ok [⟨"2025-06-02", [0, 1]⟩]
    blobs := fun u => if u = 0 then .ok chunk5A else if u = 1 then .ok chunk5B
      else .error "404" }

/-- Fixture: an Aggregator-shaped table for the C6 witness. -/
def df6 : DF :=
  ⟨["hitdttm", "user_login", "hour", "day_of_week", "date"],
   [[("hitdttm", Val.time (mkTs 2025 6 2 9 15 0)), ("user_login", Val.str "alice"),
     ("hour", Val.int 9), ("day_of_week", Val.str "Monday"),
     ("date", Val.date ⟨2025, 6, 2⟩)],
    [("hitdttm", Val.time (mkTs 2025 6 3 23 59 59)), ("user_login", Val.str "bob"),
     ("hour", Val.int 23), ("day_of_week", Val.str "Tuesday"),
     ("date", Val.date ⟨2025, 6, 3⟩)]]⟩

/-- Fixture table for the C7 witness: a tie on the peak hour (9 and 11 both
appear twice, 9 is the smaller index) and a tie on the peak day (Tuesday and
Monday both appear twice, Tuesday is first encountered). -/
def df7 : DF :=
  ⟨["hitdttm", "user_login", "hour", "day_of_week"],
   [[("hitdttm", Val.time (mkTs 2025 6 3 9 0 0)), ("user_login", Val.str "u1"),
     ("hour", Val.int 9), ("day_of_week", Val.str "Tuesday")],
    [("hitdttm", Val.time (mkTs 2025 6 2 11 0 0)), ("user_login", Val.str "u2"),
     ("hour", Val.int 11), ("day_of_week", Val.str "Monday")],
    [("hitdttm", Val.time (mkTs 2025 6 3 9 30 0)), ("user_login", Val.str "u1"),
     ("hour", Val.int 9), ("day_of_week", Val.str "Tuesday")],
    [("hitdttm", Val.time (mkTs 2025 6 2 11 30 0)), ("user_login", Val.str "u2"),
     ("hour", Val.int 11), ("day_of_week", Val.str "Monday")],
    [("hitdttm", Val.time (mkTs 2025 6 6 14 0 0)), ("user_login", Val.str "u3"),
     ("hour", Val.int 14), ("day_of_week", Val.str "Friday")]]⟩

/-- Fixture world for the C9 counterexample: token present, invalid window. -/
def w9 : World :=
  { tokenPresent := true
    since := "2025-06-10"
    untilStr := "2025-06-01"
    now := Date.epoch ⟨2025, 6, 11⟩
    probeOk := true
    manifest := .ok []
    blobs := fun _ => .error "unreachable" }

/-- Fixture world for the C9 amended-claim witness: missing token. -/
def w9b : World :=
  { tokenPresent := false
    since := "2025-06-01"
    untilStr := "2025-06-05"
    now := Date.epoch ⟨2025, 6, 6⟩
    probeOk := true
    manifest := .ok []
    blobs := fun _ => .error "unreachable" }

/-- Fixture table for the C10 witness. -/
def df10 : DF :=
  ⟨["hitdttm", "user_login", "language", "lines", "chars", "date"],
   [mkRow5 (mkTs 2025 6 2 9 0 0) "alice" "python" 5 100,
    mkRow5 (mkTs 2025 6 2 10 0 0) "bob" "go" 2 40,
    mkRow5 (mkTs 2025 6 3 8 30 0) "alice" "python" 7 150]⟩


theorem digitVal_digitChar (x : Nat) : digitVal (digitChar x) = some (x % 10) := by
  have h : x % 10 < 10 := Nat.mod_lt _ (by omega)
  unfold digitVal digitChar
  set d := x % 10 with hd
  interval_cases d <;> decide

theorem parse2_pad2 (n : Nat) (rest : List Char) (h : n ≤ 99) :
    parse2 (pad2 n ++ rest) = some (n, rest) := by
  have h1 : n / 10 % 10 = n / 10 := Nat.mod_eq_of_lt (by omega)
  have h2 : 10 * (n / 10) + n % 10 = n := by omega
  simp [pad2, parse2, digitVal_digitChar, h1, h2]

theorem parse4_pad4 (n : Nat) (rest : List Char) (h : n ≤ 9999) :
    parse4 (pad4 n ++ rest) = some (n, rest) := by
  have h1 : n / 1000 % 10 = n / 1000 := Nat.mod_eq_of_lt (by omega)
  have h2 : 1000 * (n / 1000) + 100 * (n / 100 % 10) + 10 * (n / 10 % 10) + n % 10 = n := by
    omega
  simp [pad4, parse4, digitVal_digitChar, h1, h2]

theorem expectChar_cons (c : Char) (rest : List Char) :
    expectChar c (c :: rest) = some rest := by
  simp [expectChar]

theorem parse2_pad2_nil (n : Nat) (h : n ≤ 99) : parse2 (pad2 n) = some (n, []) := by
  have := parse2_pad2 n [] h
  simpa using this

theorem daysInMonth_le (y m : Nat) : daysInMonth y m ≤ 31 := by
  unfold daysInMonth
  split
  · split <;> omega
  · split <;> omega

theorem parseTs_renderTs (t : Timestamp) (h : t.valid = true) :
    parseTimestamp (renderTimestamp t) = some t := by
  unfold Timestamp.valid at h
  simp only [Bool.and_eq_true, decide_eq_true_eq] at h
  obtain ⟨⟨⟨⟨⟨⟨⟨⟨h1, h2⟩, h3⟩, h4⟩, h5⟩, h6⟩, h7⟩, h8⟩, h9⟩ := h
  show parseTsList (renderTsList t) = some t
  have hshape : renderTsList t = pad4 t.date.year ++ ('-' :: (pad2 t.date.month ++
      ('-' :: (pad2 t.date.day ++ (' ' :: (pad2 t.hour ++ (':' :: (pad2 t.minute ++
      (':' :: pad2 t.second))))))))) := by
    simp [renderTsList, renderDateList, List.append_assoc]
  rw [hshape]
  have b1 : t.date.year ≤ 9999 := by omega
  have b2 : t.date.month ≤ 99 := by omega
  have b3 : t.date.day ≤ 99 := by
    have hd := daysInMonth_le t.date.year t.date.month
    omega
  have b4 : t.hour ≤ 99 := by omega
  have b5 : t.minute ≤ 99 := by omega
  have b6 : t.second ≤ 99 := by omega
  simp only [parseTsList, parse4_pad4 _ _ b1, expectChar_cons, parse2_pad2 _ _ b2,
    parse2_pad2 _ _ b3, parse2_pad2 _ _ b4, parse2_pad2 _ _ b5, parse2_pad2_nil _ b6]
  have hv : Timestamp.valid ⟨⟨t.date.year, t.date.month, t.date.day⟩, t.hour,
      t.minute, t.second⟩ = true := by
    unfold Timestamp.valid
    simp only [Bool.and_eq_true, decide_eq_true_eq]
    exact ⟨⟨⟨⟨⟨⟨⟨⟨h1, h2⟩, h3⟩, h4⟩, h5⟩, h6⟩, h7⟩, h8⟩, h9⟩
  simp [hv]

/-! ### Cell access lemmas -/

theorem getCell_setCell_self (r : Row) (c : String) (v : Val) :
    getCell (setCell r c v) c = some v := by
  induction r with
  | nil => simp [setCell, getCell]
  | cons p rest ih =>
    by_cases h : p.1 = c
    · simp [setCell, h, getCell]
    · simp [setCell, h, getCell, ih]

theorem getCell_setCell_ne (r : Row) (c c2 : String) (v : Val) (h : c2 ≠ c) :
    getCell (setCell r c v) c2 = getCell r c2 := by
  induction r with
  | nil => simp [setCell, getCell, h.symm]
  | cons p rest ih =>
    by_cases hp : p.1 = c
    · have hne1 : ¬ (c = c2) := fun hc => h hc.symm
      have hne2 : ¬ (p.1 = c2) := fun hc => h (hc.symm.trans hp)
      simp only [setCell, if_pos hp, getCell, if_neg hne1, if_neg hne2]
    · simp only [setCell, if_neg hp, getCell]
      by_cases hq : p.1 = c2
      · simp [hq]
      · simp [hq, ih]

/-! ### Derivation and traversal lemmas -/

theorem parseTsList_valid (cs : List Char) (t : Timestamp)
    (h : parseTsList cs = some t) : t.valid = true := by
  unfold parseTsList at h
  repeat' split at h
  all_goals simp_all
  obtain ⟨⟨-, hv⟩, rfl⟩ := h
  exact hv

theorem toDatetime_valid (v : Val) (t : Timestamp) (h : toDatetime v = some t) :
    t.valid = true := by
  cases v with
  | time t0 =>
    simp only [toDatetime] at h
    split at h
    · cases h
      assumption
    · cases h
  | str s =>
    simp only [toDatetime] at h
    exact parseTsList_valid _ _ h
  | int n => simp [toDatetime] at h
  | date d => simp [toDatetime] at h

theorem deriveRow_spec (r r2 : Row) (h : deriveRow r = some r2) :
    ∃ t, t.valid = true ∧
      getCell r2 "hitdttm" = some (Val.time t) ∧
      getCell r2 "hour" = some (Val.int t.hour) ∧
      getCell r2 "day_of_week" = some (Val.str (dayName t.date)) ∧
      getCell r2 "date" = some (Val.date t.date) ∧
      ∀ c, c ≠ "hitdttm" → c ≠ "hour" → c ≠ "day_of_week" → c ≠ "date" →
        getCell r2 c = getCell r c := by
  unfold deriveRow at h
  split at h
  · cases h
  · rename_i v hv
    split at h
    · cases h
    · rename_i t ht
      cases h
      refine ⟨t, toDatetime_valid v t ht, ?_, ?_, ?_, ?_, ?_⟩
      · rw [getCell_setCell_ne _ _ _ _ (by decide),
          getCell_setCell_ne _ _ _ _ (by decide),
          getCell_setCell_ne _ _ _ _ (by decide), getCell_setCell_self]
      · rw [getCell_setCell_ne _ _ _ _ (by decide),
          getCell_setCell_ne _ _ _ _ (by decide), getCell_setCell_self]
      · rw [getCell_setCell_ne _ _ _ _ (by decide), getCell_setCell_self]
      · rw [getCell_setCell_self]
      · intro c hc1 hc2 hc3 hc4
        rw [getCell_setCell_ne _ _ _ _ hc4, getCell_setCell_ne _ _ _ _ hc3,
          getCell_setCell_ne _ _ _ _ hc2, getCell_setCell_ne _ _ _ _ hc1]

theorem deriveRow_rowDerivedOk (r r2 : Row) (h : deriveRow r = some r2) :
    rowDerivedOk r2 = true := by
  obtain ⟨t, hv, h1, h2, h3, h4, _⟩ := deriveRow_spec r r2 h
  unfold rowDerivedOk
  rw [h1]
  simp [hv, h2, h3, h4]

theorem mapOption_eq_some_of_forall {α β : Type} (F : α → Option β) (f : α → β) :
    ∀ (l : List α), (∀ a ∈ l, F a = some (f a)) → mapOption F l = some (l.map f) := by
  intro l
  induction l with
  | nil => intro _; rfl
  | cons a l ih =>
    intro h
    unfold mapOption
    rw [h a (by simp), ih (fun b hb => h b (by simp [hb]))]
    simp

theorem mapOption_eq_some_forall2 {α β : Type} (F : α → Option β) :
    ∀ (l : List α) (l2 : List β), mapOption F l = some l2 →
      List.Forall₂ (fun a b => F a = some b) l l2 := by
  intro l
  induction l with
  | nil =>
    intro l2 h
    cases h
    exact List.Forall₂.nil
  | cons a l ih =>
    intro l2 h
    unfold mapOption at h
    cases hF : F a with
    | none => rw [hF] at h; cases h
    | some b =>
      rw [hF] at h
      cases hM : mapOption F l with
      | none => rw [hM] at h; cases h
      | some l3 =>
        rw [hM] at h
        cases h
        exact List.Forall₂.cons hF (ih l3 hM)

theorem mapOption_isSome_of_forall {α β : Type} (F : α → Option β) :
    ∀ (l : List α), (∀ a ∈ l, ∃ b, F a = some b) →
      ∃ l2, mapOption F l = some l2 := by
  intro l
  induction l with
  | nil => intro _; exact ⟨[], rfl⟩
  | cons a l ih =>
    intro h
    obtain ⟨b, hb⟩ := h a (by simp)
    obtain ⟨l2, hl2⟩ := ih (fun x hx => h x (by simp [hx]))
    refine ⟨b :: l2, ?_⟩
    unfold mapOption
    rw [hb, hl2]

/-! ### firstDedup lemmas -/

theorem mem_firstDedupAux {α : Type} [DecidableEq α] :
    ∀ (l : List α) (seen : List α) (x : α),
      x ∈ firstDedupAux seen l ↔ x ∈ l ∧ x ∉ seen := by
  intro l
  induction l with
  | nil => simp [firstDedupAux]
  | cons a l ih =>
    intro seen x
    unfold firstDedupAux
    rcases eq_or_ne x a with rfl | hxa
    · by_cases ha : x ∈ seen
      · rw [if_pos ha, ih]
        simp [ha]
      · rw [if_neg ha]
        simp [ha]
    · by_cases ha : a ∈ seen
      · rw [if_pos ha, ih]
        simp [hxa]
      · rw [if_neg ha]
        simp only [List.mem_cons, ih]
        simp [hxa]

theorem nodup_firstDedupAux {α : Type} [DecidableEq α] :
    ∀ (l : List α) (seen : List α), (firstDedupAux seen l).Nodup := by
  intro l
  induction l with
  | nil => intro seen; simp [firstDedupAux]
  | cons a l ih =>
    intro seen
    unfold firstDedupAux
    by_cases ha : a ∈ seen
    · rw [if_pos ha]
      exact ih seen
    · rw [if_neg ha]
      refine List.Nodup.cons ?_ (ih (a :: seen))
      intro hmem
      exact ((mem_firstDedupAux l (a :: seen) a).mp hmem).2 (by simp)

theorem mem_firstDedup {α : Type} [DecidableEq α] (l : List α) (x : α) :
    x ∈ firstDedup l ↔ x ∈ l := by
  simp [firstDedup, mem_firstDedupAux]

theorem nodup_firstDedup {α : Type} [DecidableEq α] (l : List α) :
    (firstDedup l).Nodup := nodup_firstDedupAux l []

/-! ### idxmax and sorting lemmas -/

theorem idxmaxAux_spec {κ : Type} :
    ∀ (l : List (κ × Nat)) (k : κ) (c : Nat),
      (idxmaxAux k c l = k ∧ ∀ p ∈ l, p.2 ≤ c) ∨
      (∃ l1 p l2, l = l1 ++ p :: l2 ∧ idxmaxAux k c l = p.1 ∧ c < p.2 ∧
        (∀ q ∈ l1, q.2 < p.2) ∧ (∀ q ∈ l2, q.2 ≤ p.2)) := by
  intro l
  induction l with
  | nil => intro k c; exact Or.inl ⟨rfl, by simp⟩
  | cons q rest ih =>
    intro k c
    by_cases h : c < q.2
    · rcases ih q.1 q.2 with ⟨he, hb⟩ | ⟨l1, p, l2, hsplit, he, hc, hl1, hl2⟩
      · refine Or.inr ⟨[], q, rest, by simp, ?_, h, by simp, hb⟩
        simpa [idxmaxAux, if_pos h] using he
      · refine Or.inr ⟨q :: l1, p, l2, by simp [hsplit], ?_, lt_trans h hc, ?_, hl2⟩
        · simpa [idxmaxAux, if_pos h] using he
        · intro x hx
          rcases List.mem_cons.mp hx with rfl | hx2
          · exact hc
          · exact hl1 x hx2
    · rcases ih k c with ⟨he, hb⟩ | ⟨l1, p, l2, hsplit, he, hc, hl1, hl2⟩
      · refine Or.inl ⟨?_, ?_⟩
        · simpa [idxmaxAux, if_neg h] using he
        · intro x hx
          rcases List.mem_cons.mp hx with rfl | hx2
          · omega
          · exact hb x hx2
      · refine Or.inr ⟨q :: l1, p, l2, by simp [hsplit], ?_, hc, ?_, hl2⟩
        · simpa [idxmaxAux, if_neg h] using he
        · intro x hx
          rcases List.mem_cons.mp hx with rfl | hx2
          · omega
          · exact hl1 x hx2

/-- idxmax returns an element of maximal value, at its first occurrence:
the list splits around the returned key with strictly smaller values before
it and no larger value after it. -/
theorem idxmax_spec {κ : Type} (l : List (κ × Nat)) (k : κ)
    (h : idxmax l = some k) :
    ∃ l1 c l2, l = l1 ++ (k, c) :: l2 ∧
      (∀ q ∈ l1, q.2 < c) ∧ (∀ q ∈ l2, q.2 ≤ c) := by
  match l, h with
  | q :: rest, h =>
    have he : idxmaxAux q.1 q.2 rest = k := by
      simpa [idxmax] using h
    rcases idxmaxAux_spec rest q.1 q.2 with ⟨he2, hb⟩ | ⟨l1, p, l2, hsplit, he2, hc, hl1, hl2⟩
    · refine ⟨[], q.2, rest, ?_, by simp, hb⟩
      rw [he2] at he
      subst he
      simp
    · rw [he2] at he
      refine ⟨q :: l1, p.2, l2, ?_, ?_, hl2⟩
      · rw [hsplit, ← he]
        simp
      · intro x hx
        rcases List.mem_cons.mp hx with rfl | hx2
        · exact hc
        · exact hl1 x hx2

/-- On a list whose head dominates every other value, idxmax is the head. -/
theorem idxmax_head {κ : Type} (q : κ × Nat) (rest : List (κ × Nat))
    (h : ∀ p ∈ rest, p.2 ≤ q.2) : idxmax (q :: rest) = some q.1 := by
  have : ∀ (l : List (κ × Nat)) (k : κ) (c : Nat), (∀ p ∈ l, p.2 ≤ c) →
      idxmaxAux k c l = k := by
    intro l
    induction l with
    | nil => intro k c _; rfl
    | cons p rest2 ih =>
      intro k c hb
      have : ¬ c < p.2 := by
        have := hb p (by simp)
        omega
      simp only [idxmaxAux, if_neg this]
      exact ih k c (fun x hx => hb x (by simp [hx]))
  simp [idxmax, this rest q.1 q.2 h]

/-! ### Fold, mode and sortedness lemmas -/

theorem foldl_choice_mem {α : Type} (f : α → α → α)
    (hf : ∀ a b, f a b = a ∨ f a b = b) :
    ∀ (l : List α) (a : α), l.foldl f a ∈ a :: l := by
  intro l
  induction l with
  | nil => intro a; simp
  | cons b l ih =>
    intro a
    rcases hf a b with he | he
    · rw [List.foldl_cons, he]
      rcases List.mem_cons.mp (ih a) with h | h
      · exact List.mem_cons.mpr (Or.inl h)
      · exact List.mem_cons.mpr (Or.inr (by simp [h]))
    · rw [List.foldl_cons, he]
      rcases List.mem_cons.mp (ih b) with h | h
      · exact List.mem_cons.mpr (Or.inr (by simp [h]))
      · exact List.mem_cons.mpr (Or.inr (by simp [h]))

theorem foldlMinTs_le :
    ∀ (ts : List Timestamp) (t : Timestamp) (x : Timestamp),
      x ∈ t :: ts →
      tsVal (ts.foldl (fun a b => if tsVal b < tsVal a then b else a) t) ≤ tsVal x := by
  intro ts
  induction ts with
  | nil =>
    intro t x hx
    rcases List.mem_cons.mp hx with rfl | h
    · simp
    · cases h
  | cons t2 rest ih =>
    intro t x hx
    simp only [List.foldl_cons]
    by_cases hlt : tsVal t2 < tsVal t
    · rw [if_pos hlt]
      rcases List.mem_cons.mp hx with heq | hx2
      · rw [heq]
        exact le_trans (ih t2 t2 (by simp)) (le_of_lt hlt)
      · exact ih t2 x hx2
    · rw [if_neg hlt]
      rcases List.mem_cons.mp hx with heq | hx2
      · rw [heq]
        exact ih t t (by simp)
      · rcases List.mem_cons.mp hx2 with heq | hx3
        · rw [heq]
          exact le_trans (ih t t (by simp)) (by omega)
        · exact ih t x (by simp [hx3])

theorem minTs_spec (ts : List Timestamp) (m : Timestamp) (h : minTs ts = some m) :
    m ∈ ts ∧ ∀ x ∈ ts, tsVal m ≤ tsVal x := by
  cases ts with
  | nil => cases h
  | cons t rest =>
    have hm : m = rest.foldl (fun a b => if tsVal b < tsVal a then b else a) t := by
      simpa [minTs] using h.symm
    constructor
    · rw [hm]
      exact foldl_choice_mem _ (fun a b => by by_cases hc : tsVal b < tsVal a <;>
        simp [hc]) rest t
    · intro x hx
      rw [hm]
      exact foldlMinTs_le rest t x hx

theorem foldlMaxTs_ge :
    ∀ (ts : List Timestamp) (t : Timestamp) (x : Timestamp),
      x ∈ t :: ts →
      tsVal x ≤ tsVal (ts.foldl (fun a b => if tsVal a < tsVal b then b else a) t) := by
  intro ts
  induction ts with
  | nil =>
    intro t x hx
    rcases List.mem_cons.mp hx with rfl | h
    · simp
    · cases h
  | cons t2 rest ih =>
    intro t x hx
    simp only [List.foldl_cons]
    by_cases hlt : tsVal t < tsVal t2
    · rw [if_pos hlt]
      rcases List.mem_cons.mp hx with heq | hx2
      · rw [heq]
        exact le_trans (le_of_lt hlt) (ih t2 t2 (by simp))
      · exact ih t2 x hx2
    · rw [if_neg hlt]
      rcases List.mem_cons.mp hx with heq | hx2
      · rw [heq]
        exact ih t t (by simp)
      · rcases List.mem_cons.mp hx2 with heq | hx3
        · rw [heq]
          exact le_trans (by omega) (ih t t (by simp))
        · exact ih t x (by simp [hx3])

theorem maxTs_spec (ts : List Timestamp) (m : Timestamp) (h : maxTs ts = some m) :
    m ∈ ts ∧ ∀ x ∈ ts, tsVal x ≤ tsVal m := by
  cases ts with
  | nil => cases h
  | cons t rest =>
    have hm : m = rest.foldl (fun a b => if tsVal a < tsVal b then b else a) t := by
      simpa [maxTs] using h.symm
    constructor
    · rw [hm]
      exact foldl_choice_mem _ (fun a b => by by_cases hc : tsVal a < tsVal b <;>
        simp [hc]) rest t
    · intro x hx
      rw [hm]
      exact foldlMaxTs_ge rest t x hx

theorem le_foldr_max (l : List Nat) (x : Nat) (h : x ∈ l) : x ≤ l.foldr max 0 := by
  induction l with
  | nil => cases h
  | cons a l ih =>
    rcases List.mem_cons.mp h with rfl | h2
    · exact le_max_left _ _
    · exact le_trans (ih h2) (le_max_right _ _)

theorem foldr_max_mem (l : List Nat) (h : l ≠ []) :
    l.foldr max 0 ∈ l ∨ l.foldr max 0 = 0 := by
  induction l with
  | nil => exact absurd rfl h
  | cons a l ih =>
    by_cases hl : l = []
    · subst hl
      simp
    · rcases le_total a (l.foldr max 0) with hle | hle
      · rw [List.foldr_cons, max_eq_right hle]
        rcases ih hl with hm | hz
        · exact Or.inl (by simp [hm])
        · exact Or.inr hz
      · rw [List.foldr_cons, max_eq_left hle]
        exact Or.inl (by simp)

theorem count_le_maxCount (vs : List String) (v : String) :
    vs.count v ≤ maxCount vs := by
  by_cases h : v ∈ vs
  · exact le_foldr_max _ _ (List.mem_map.mpr ⟨v, (mem_firstDedup vs v).mpr h, rfl⟩)
  · rw [List.count_eq_zero_of_not_mem h]
    exact Nat.zero_le _

theorem maxCount_attained (vs : List String) (h : vs ≠ []) :
    ∃ v ∈ firstDedup vs, vs.count v = maxCount vs := by
  have hne : (firstDedup vs).map (fun v => vs.count v) ≠ [] := by
    match vs, h with
    | a :: rest, _ =>
      have : a ∈ firstDedup (a :: rest) := (mem_firstDedup _ _).mpr (by simp)
      simp only [ne_eq, List.map_eq_nil_iff]
      intro hc
      rw [hc] at this
      cases this
  rcases foldr_max_mem _ hne with hm | hz
  · obtain ⟨v, hv, he⟩ := List.mem_map.mp hm
    exact ⟨v, hv, he⟩
  · match vs, h with
    | a :: rest, _ =>
      have ha : a ∈ firstDedup (a :: rest) := (mem_firstDedup _ _).mpr (by simp)
      have hc : (a :: rest).count a ≤ 0 := by
        have := le_foldr_max ((firstDedup (a :: rest)).map
          (fun v => (a :: rest).count v)) ((a :: rest).count a)
          (List.mem_map.mpr ⟨a, ha, rfl⟩)
        omega
      have : 0 < (a :: rest).count a := List.count_pos_iff.mpr (by simp)
      omega

theorem modeMin_spec (vs : List String) (m : String) (h : modeMin vs = some m) :
    m ∈ vs ∧ ∀ v, vs.count v ≤ vs.count m := by
  unfold modeMin at h
  split at h
  · cases h
  · rename_i c cs heq
    cases h
    have hmem : (cs.foldl (fun a b => if b < a then b else a) c) ∈ c :: cs :=
      foldl_choice_mem _ (fun a b => by by_cases hc : b < a <;> simp [hc]) cs c
    have : (cs.foldl (fun a b => if b < a then b else a) c) ∈
        (firstDedup vs).filter (fun v => vs.count v == maxCount vs) := by
      rw [heq]
      exact hmem
    have hf := List.mem_filter.mp this
    have hcnt : vs.count (cs.foldl (fun a b => if b < a then b else a) c) =
        maxCount vs := by
      have := hf.2
      simpa using this
    refine ⟨(mem_firstDedup _ _).mp hf.1, fun v => ?_⟩
    rw [hcnt]
    exact count_le_maxCount vs v

theorem modeMin_isSome (vs : List String) (h : vs ≠ []) :
    ∃ m, modeMin vs = some m := by
  obtain ⟨v, hv, hc⟩ := maxCount_attained vs h
  have hmem : v ∈ (firstDedup vs).filter (fun v => vs.count v == maxCount vs) :=
    List.mem_filter.mpr ⟨hv, by simp [hc]⟩
  unfold modeMin
  split
  · rename_i heq
    rw [heq] at hmem
    cases hmem
  · exact ⟨_, rfl⟩

/-! ### value_counts and groupby lemmas -/

theorem mem_countsDesc (vs : List String) (p : String × Nat) :
    p ∈ countsDesc vs ↔ p.1 ∈ vs ∧ p.2 = vs.count p.1 := by
  unfold countsDesc
  rw [(List.perm_insertionSort _ _).mem_iff]
  constructor
  · intro h
    obtain ⟨v, hv, he⟩ := List.mem_map.mp h
    rw [← he]
    exact ⟨(mem_firstDedup _ _).mp hv, rfl⟩
  · rintro ⟨h1, h2⟩
    refine List.mem_map.mpr ⟨p.1, (mem_firstDedup _ _).mpr h1, ?_⟩
    rw [← h2]

theorem sorted_countsDesc (vs : List String) :
    List.Sorted (fun a b : String × Nat => b.2 ≤ a.2) (countsDesc vs) := by
  haveI ht : IsTotal (String × Nat) (fun a b => b.2 ≤ a.2) :=
    ⟨fun a b => le_total b.2 a.2⟩
  haveI htr : IsTrans (String × Nat) (fun a b => b.2 ≤ a.2) :=
    ⟨fun _ _ _ hab hbc => le_trans hbc hab⟩
  exact List.sorted_insertionSort _ _

theorem mem_groupSizesAsc (df : DF) (c : String) (p : Int × Nat) :
    p ∈ groupSizesAsc df c ↔
      p.1 ∈ intColVals df c ∧ p.2 = (intColVals df c).count p.1 := by
  unfold groupSizesAsc
  rw [(List.perm_insertionSort _ _).mem_iff]
  constructor
  · intro h
    obtain ⟨v, hv, he⟩ := List.mem_map.mp h
    rw [← he]
    exact ⟨(mem_firstDedup _ _).mp hv, rfl⟩
  · rintro ⟨h1, h2⟩
    refine List.mem_map.mpr ⟨p.1, (mem_firstDedup _ _).mpr h1, ?_⟩
    rw [← h2]

theorem sorted_groupSizesAsc (df : DF) (c : String) :
    List.Sorted (fun a b : Int × Nat => a.1 ≤ b.1) (groupSizesAsc df c) := by
  haveI ht : IsTotal (Int × Nat) (fun a b : Int × Nat => a.1 ≤ b.1) :=
    ⟨fun a b => le_total a.1 b.1⟩
  haveI htr : IsTrans (Int × Nat) (fun a b : Int × Nat => a.1 ≤ b.1) :=
    ⟨fun _ _ _ hab hbc => le_trans hab hbc⟩
  exact List.sorted_insertionSort _ _

theorem keys_nodup_countsDesc (vs : List String) :
    ((countsDesc vs).map Prod.fst).Nodup := by
  have hperm : (countsDesc vs).Perm
      ((firstDedup vs).map (fun v => (v, vs.count v))) :=
    List.perm_insertionSort _ _
  have h2 : (((firstDedup vs).map (fun v => (v, vs.count v))).map Prod.fst).Nodup := by
    rw [List.map_map]
    have hid : (Prod.fst ∘ fun v : String => (v, vs.count v)) = id := rfl
    rw [hid, List.map_id]
    exact nodup_firstDedup vs
  exact ((hperm.map Prod.fst).nodup_iff).mpr h2

theorem keys_nodup_groupSizesAsc (df : DF) (c : String) :
    ((groupSizesAsc df c).map Prod.fst).Nodup := by
  have hperm : (groupSizesAsc df c).Perm
      ((firstDedup (intColVals df c)).map (fun v => (v, (intColVals df c).count v))) :=
    List.perm_insertionSort _ _
  have h2 : (((firstDedup (intColVals df c)).map
      (fun v => (v, (intColVals df c).count v))).map Prod.fst).Nodup := by
    rw [List.map_map]
    have hid : (Prod.fst ∘ fun v : Int => (v, (intColVals df c).count v)) = id := rfl
    rw [hid, List.map_id]
    exact nodup_firstDedup (intColVals df c)
  exact ((hperm.map Prod.fst).nodup_iff).mpr h2

theorem find?_key_of_nodup {κ : Type} [DecidableEq κ] [BEq κ] [LawfulBEq κ] :
    ∀ (l : List (κ × Nat)) (k : κ) (c : Nat),
      (l.map Prod.fst).Nodup → (k, c) ∈ l →
      l.find? (fun p => p.1 == k) = some (k, c) := by
  intro l
  induction l with
  | nil => intro k c _ hm; cases hm
  | cons q rest ih =>
    intro k c hnd hm
    by_cases hk : q.1 = k
    · rcases List.mem_cons.mp hm with heq | hm2
      · rw [heq]
        exact List.find?_cons_of_pos _ (by simp [hk])
      · exfalso
        have : k ∈ rest.map Prod.fst := List.mem_map.mpr ⟨(k, c), hm2, rfl⟩
        have hq : q.1 ∉ rest.map Prod.fst := (List.nodup_cons.mp (by simpa using hnd)).1
        rw [hk] at hq
        exact hq this
    · rw [List.find?_cons_of_neg _ (by simpa using hk)]
      rcases List.mem_cons.mp hm with heq | hm2
      · exact absurd (by rw [← heq]) hk
      · exact ih k c (List.nodup_cons.mp (by simpa using hnd)).2 hm2

/-- When validation fails, collect_data stops at once: it returns False with
only the failure logged, before any network request. -/
theorem collectData_validation_error (w : World) (e : DateError)
    (he : validateDateRange w.since w.untilStr w.now = .error e) :
    collectData w = ⟨none, false, none, [Event.logDateError e]⟩ := by
  unfold collectData
  simp only [he]

/-- Claim C1: date-window validation succeeds exactly when both dates parse
in YYYY-MM-DD format, since is not after until, the span is at most 14 days,
and since is at most 365 days in the past; on every violation collect_data
returns False having logged which rule failed, and its trace contains no
network event. -/
theorem c1_window_validation (w : World) :
    (validateDateRange w.since w.untilStr w.now = .ok () ↔
      SpecWindowValid w.since w.untilStr w.now) ∧
    (∀ e, validateDateRange w.since w.untilStr w.now = .error e →
      collectData w = ⟨none, false, none, [Event.logDateError e]⟩ ∧
      ∀ ev ∈ (collectData w).events, isNetworkEvent ev = false) := by
  constructor
  · constructor
    · intro h
      unfold validateDateRange at h
      split at h
      · rename_i ds du hs hu
        split at h
        · cases h
        · split at h
          · cases h
          · split at h
            · cases h
            · rename_i h1 h2 h3
              exact ⟨ds, du, hs, hu, by omega, by omega, by omega⟩
      · cases h
    · rintro ⟨ds, du, hds, hdu, h1, h2, h3⟩
      unfold validateDateRange
      simp only [hds, hdu]
      rw [if_neg (by omega), if_neg (by omega), if_neg (by omega)]
  · intro e he
    have hcd := collectData_validation_error w e he
    refine ⟨hcd, ?_⟩
    rw [hcd]
    intro ev hev
    rcases List.mem_singleton.mp hev with rfl
    rfl

/-- Witness for C1 at a concrete violating configuration. -/
theorem c1_window_validation_witness :
    validateDateRange w1.since w1.untilStr w1.now = .error .sinceAfterUntil ∧
    collectData w1 = ⟨none, false, none,
      [Event.logDateError DateError.sinceAfterUntil]⟩ :=
  ⟨by decide, ((c1_window_validation w1).2 DateError.sinceAfterUntil (by decide)).1⟩

/-- A manifest whose entries all carry empty blob_uris lists yields no URIs. -/
theorem manifestUris_nil (entries : List ManifestEntry)
    (h : ∀ e ∈ entries, e.blob_uris = []) : manifestUris entries = [] := by
  unfold manifestUris
  induction entries with
  | nil => rfl
  | cons e es ih =>
    rw [List.flatMap_cons, h e (by simp), ih (fun x hx => h x (by simp [hx]))]
    rfl

/-- Claim C3: with zero blob URIs across all dates, the aggregate stays
empty, collect_data returns False after logging a warning, and the pipeline
short-circuits returning normally (no exception) without writing any report,
chart or export file. -/
theorem c3_empty_manifest_short_circuit (w : World) (entries : List ManifestEntry)
    (hval : validateDateRange w.since w.untilStr w.now = .ok ())
    (hprobe : w.probeOk = true)
    (hman : w.manifest = .ok entries)
    (hempty : ∀ e ∈ entries, e.blob_uris = []) :
    (collectData w).df = none ∧ (collectData w).ok = false ∧
    Event.logWarn "no data" ∈ (collectData w).events ∧
    (runCompleteAnalysis w).result = .ok false ∧
    (∀ ev ∈ (runCompleteAnalysis w).events, isFsOutputEvent ev = false) := by
  have huris := manifestUris_nil entries hempty
  have hsucc : successChunks w entries = [] := by
    unfold successChunks
    rw [huris]
    rfl
  have hblob : blobEvents w entries = [] := by
    unfold blobEvents
    rw [huris]
    rfl
  have hcd : collectData w = ⟨none, false, none,
      [Event.netProbe, Event.netManifest, Event.logWarn "no data"]⟩ := by
    unfold collectData
    simp only [hval, hprobe, hman, hsucc, hblob, if_true]
    rfl
  have hrun : runCompleteAnalysis w = ⟨.ok false, none,
      [Event.netProbe, Event.netManifest, Event.logWarn "no data"]⟩ := by
    unfold runCompleteAnalysis
    rw [hcd]
    rfl
  rw [hcd, hrun]
  refine ⟨rfl, rfl, by decide, rfl, by decide⟩

/-- Witness for C3 at a concrete empty manifest. -/
theorem c3_empty_manifest_witness :
    (collectData w3).df = none ∧ (collectData w3).ok = false ∧
    Event.logWarn "no data" ∈ (collectData w3).events ∧
    (runCompleteAnalysis w3).result = .ok false :=
  have h := c3_empty_manifest_short_circuit w3 [⟨"2025-06-02", []⟩, ⟨"2025-06-03", []⟩]
    (by decide) (by decide) (by decide) (by decide)
  ⟨h.1, h.2.1, h.2.2.1, h.2.2.2.1⟩

/-- Claim C8: the Reporter, Visualizer and Exporter steps are pure readers of
self.df: composing them leaves the state unchanged, and the table held after
run_complete_analysis is exactly the one collect_data produced. -/
theorem c8_steps_preserve_table :
    (∀ s : Option DF, (exportStep ((vizStep ((reporterStep s).1)).1)).1 = s) ∧
    (∀ w : World, (runCompleteAnalysis w).df = (collectData w).df) := by
  constructor
  · intro s
    rfl
  · intro w
    dsimp only [runCompleteAnalysis, reporterStep, vizStep, exportStep]
    repeat' split
    all_goals rfl

/-- Claim C9 (amended): a missing token aborts before any I/O at all — no
network event and no filesystem output; an invalid date window aborts the
run with exit code 1 before any network call, but only after the output
directory tree has already been created in __init__. -/
theorem c9_config_error_aborts (w : World) :
    (w.tokenPresent = false →
      runMain w = (1, [Event.envRead, Event.logError "GITHUB_TOKEN is not set"]) ∧
      ∀ ev ∈ (runMain w).2, isNetworkEvent ev = false ∧ isFsOutputEvent ev = false) ∧
    (∀ e, w.tokenPresent = true →
      validateDateRange w.since w.untilStr w.now = .error e →
      (runMain w).1 = 1 ∧
      (∀ ev ∈ (runMain w).2, isNetworkEvent ev = false) ∧
      Event.mkdir "plots" ∈ (runMain w).2) := by
  constructor
  · intro h
    have hrm : runMain w = (1, [Event.envRead, Event.logError "GITHUB_TOKEN is not set"]) := by
      unfold runMain
      rw [h]
      rfl
    refine ⟨hrm, ?_⟩
    rw [hrm]
    intro ev hev
    rcases List.mem_cons.mp hev with rfl | hev2
    · exact ⟨rfl, rfl⟩
    · rcases List.mem_singleton.mp hev2 with rfl
      exact ⟨rfl, rfl⟩
  · intro e htok he
    have hcd := collectData_validation_error w e he
    have hrun : runCompleteAnalysis w = ⟨.ok false, none, [Event.logDateError e]⟩ := by
      unfold runCompleteAnalysis
      rw [hcd]
      rfl
    have hrm : runMain w = (1, [Event.envRead, Event.mkdir "output",
        Event.mkdir "plots", Event.mkdir "reports", Event.mkdir "data",
        Event.logDateError e]) := by
      unfold runMain
      rw [htok, if_pos rfl, hrun]
      rfl
    rw [hrm]
    refine ⟨rfl, ?_, by simp⟩
    intro ev hev
    simp only [List.mem_cons, List.mem_singleton] at hev
    rcases hev with rfl | rfl | rfl | rfl | rfl | (rfl | h2)
    · rfl
    · rfl
    · rfl
    · rfl
    · rfl
    · rfl
    · cases h2

/-- Witness for the amended C9 at concrete worlds. -/
theorem c9_config_error_aborts_witness :
    runMain w9b = (1, [Event.envRead, Event.logError "GITHUB_TOKEN is not set"]) ∧
    (runMain w9).1 = 1 :=
  ⟨((c9_config_error_aborts w9b).1 rfl).1,
   ((c9_config_error_aborts w9).2 DateError.sinceAfterUntil rfl (by decide)).1⟩

/-- Counterexample for C9 as stated: a run whose date window is invalid does
abort (exit code 1, no network call), but the output directories were
created on disk before the validation ran, so it does not abort before all
I/O. -/
theorem c9_counterexample :
    w9.tokenPresent = true ∧
    validateDateRange w9.since w9.untilStr w9.now = .error DateError.sinceAfterUntil ∧
    (runMain w9).1 = 1 ∧
    Event.mkdir "plots" ∈ (runMain w9).2 ∧
    Event.mkdir "data" ∈ (runMain w9).2 := by
  decide

/-- Claim C4 (code bug evaluated): on an aggregated table lacking the
optional language column, the Reporter succeeds and omits the
top-programming-languages section, and the Visualizer succeeds and skips the
language-analysis panel set — but the Exporter then raises KeyError, because
its per-user agg dict references the language column unconditionally, so the
remainder of the run does not stay error-free and no export file is
written. -/
theorem c4_missing_language_behaviour :
    reportedLangSection (some df4) = some none ∧
    createVisualizations (some df4) = .ok
      [Event.fileWrite "plots/user_engagement.png",
       Event.fileWrite "plots/feature_usage.png",
       Event.fileWrite "plots/time_patterns.png",
       Event.fileWrite "plots/environment_analysis.png"] ∧
    (exportDetailedData (some df4)).err = some (PyErr.keyError ["language"]) ∧
    (exportDetailedData (some df4)).events = [] ∧
    (exportDetailedData (some df4)).userSummary = none := by
  decide

/-- Claim C5 (code bug evaluated): in the end-to-end scenario — one manifest
entry, two blob URIs, each a 3-row chunk with columns hitdttm, user_login
and language — the aggregate has exactly 6 rows and the Reporter's unique
users figure equals the number of distinct user_login values, but the
per-user CSV export raises KeyError on the absent lines and chars columns,
so user_activity_summary.csv is never produced and run_complete_analysis
dies with that exception. -/
theorem c5_end_to_end_export_crash :
    (collectData w5).ok = true ∧
    (collectData w5).df.map (fun d => d.rows.length) = some 6 ∧
    (collectData w5).df.map (fun d => reportedUniqueUsers (some d)) =
      some (some 2) ∧
    (collectData w5).df.map
      (fun d => (firstDedup (strColVals d "user_login")).length) = some 2 ∧
    (collectData w5).df.map (fun d => (exportDetailedData (some d)).err) =
      some (some (PyErr.keyError ["lines", "chars"])) ∧
    (collectData w5).df.map (fun d => (exportDetailedData (some d)).userSummary) =
      some none ∧
    (runCompleteAnalysis w5).result = .error (PyErr.keyError ["lines", "chars"]) := by
  decide

theorem mem_valueCounts (df : DF) (c : String) (p : String × Nat) :
    p ∈ valueCounts df c ↔
      p.1 ∈ strColVals df c ∧ p.2 = (strColVals df c).count p.1 :=
  mem_countsDesc _ _

theorem sorted_valueCounts (df : DF) (c : String) :
    List.Sorted (fun a b : String × Nat => b.2 ≤ a.2) (valueCounts df c) :=
  sorted_countsDesc _

/-- Claim C7: when the Reporter runs, its peak hour is an hour of maximal
interaction count and, among the maximisers, the least hour (the first
maximum of the hour-sorted grouping); its most-active day is a weekday of
maximal interaction count, namely the head of the descending-count
value_counts ordering; the reported counts are those of the grouping. -/
theorem c7_peak_hour_day (df : DF) (ph : Int) (hcnt : Nat) (pd : String) (dcnt : Nat)
    (h : reportedPeaks (some df) = some (ph, hcnt, pd, dcnt)) :
    (ph ∈ intColVals df "hour" ∧ hcnt = (intColVals df "hour").count ph ∧
      (∀ x, (intColVals df "hour").count x ≤ (intColVals df "hour").count ph) ∧
      (∀ x ∈ intColVals df "hour",
        (intColVals df "hour").count x = (intColVals df "hour").count ph → ph ≤ x)) ∧
    (pd ∈ strColVals df "day_of_week" ∧
      dcnt = (strColVals df "day_of_week").count pd ∧
      (∀ x, (strColVals df "day_of_week").count x ≤
        (strColVals df "day_of_week").count pd) ∧
      (valueCounts df "day_of_week").head? = some (pd, dcnt)) := by
  unfold reportedPeaks at h
  split at h
  case h_2 => cases h
  case h_1 r heq =>
    simp only [Option.some.injEq, Prod.mk.injEq] at h
    obtain ⟨h1, h2, h3, h4⟩ := h
    subst h1
    subst h2
    subst h3
    subst h4
    simp only [generateSummaryReport] at heq
    repeat' split at heq
    all_goals try cases heq
    rename_i ph2 pd2 hidxh hidxd
    dsimp only [buildReport]
    constructor
    · -- peak hour: first maximum in hour-ascending order
      obtain ⟨l1, c, l2, hdec, hl1, hl2⟩ := idxmax_spec _ _ hidxh
      have hmemp : (ph2, c) ∈ groupSizesAsc df "hour" := by
        rw [hdec]
        simp
      have hmem := (mem_groupSizesAsc df "hour" (ph2, c)).mp hmemp
      have hcount : c = (intColVals df "hour").count ph2 := hmem.2
      have hfind : (groupSizesAsc df "hour").find? (fun p => p.1 == ph2) =
          some (ph2, c) :=
        find?_key_of_nodup _ _ _ (keys_nodup_groupSizesAsc df "hour") hmemp
      have hmax : ∀ x, (intColVals df "hour").count x ≤
          (intColVals df "hour").count ph2 := by
        intro x
        by_cases hx : x ∈ intColVals df "hour"
        · have hxp : (x, (intColVals df "hour").count x) ∈ groupSizesAsc df "hour" :=
            (mem_groupSizesAsc df "hour" _).mpr ⟨hx, rfl⟩
          rw [hdec] at hxp
          rcases List.mem_append.mp hxp with hin1 | hin2
          · have := hl1 _ hin1
            omega
          · rcases List.mem_cons.mp hin2 with heq2 | hin3
            · rw [← hcount]
              have : (x, (intColVals df "hour").count x).2 = c := by rw [heq2]
              simp at this
              omega
            · have := hl2 _ hin3
              rw [← hcount]
              exact this
        · rw [List.count_eq_zero_of_not_mem hx]
          exact Nat.zero_le _
      refine ⟨hmem.1, ?_, hmax, ?_⟩
      · rw [hfind]
        simp [hcount]
      · -- tie-break: least hour among the maximisers
        intro x hx hcx
        have hxp : (x, (intColVals df "hour").count x) ∈ groupSizesAsc df "hour" :=
          (mem_groupSizesAsc df "hour" _).mpr ⟨hx, rfl⟩
        have hsort := sorted_groupSizesAsc df "hour"
        rw [hdec] at hxp hsort
        rcases List.mem_append.mp hxp with hin1 | hin2
        · have := hl1 _ hin1
          rw [hcx, ← hcount] at this
          omega
        · rcases List.mem_cons.mp hin2 with heq2 | hin3
          · have : x = ph2 := by
              have := congrArg Prod.fst heq2
              simpa using this
            omega
          · have hrel := (List.pairwise_append.mp hsort).2.1
            have := (List.pairwise_cons.mp hrel).1 _ hin3
            simpa using this
    · -- peak day: head of the descending value_counts
      cases hvc : valueCounts df "day_of_week" with
      | nil =>
        rw [hvc] at hidxd
        cases hidxd
      | cons p rest =>
        have hsort := sorted_valueCounts df "day_of_week"
        rw [hvc] at hsort
        have hdom : ∀ q ∈ rest, q.2 ≤ p.2 := (List.sorted_cons.mp hsort).1
        have hhead : idxmax (p :: rest) = some p.1 := idxmax_head p rest hdom
        rw [hvc, hhead] at hidxd
        injection hidxd with h5
        subst h5
        have hmemp : p ∈ valueCounts df "day_of_week" := by
          rw [hvc]
          exact List.mem_cons_self _ _
        have hmem := (mem_valueCounts df "day_of_week" p).mp hmemp
        have hfind : (p :: rest).find? (fun q => q.1 == p.1) = some p :=
          List.find?_cons_of_pos _ (by simp)
        have hmax : ∀ x, (strColVals df "day_of_week").count x ≤
            (strColVals df "day_of_week").count p.1 := by
          intro x
          by_cases hx : x ∈ strColVals df "day_of_week"
          · have hxp : (x, (strColVals df "day_of_week").count x) ∈
                valueCounts df "day_of_week" :=
              (mem_valueCounts df "day_of_week" _).mpr ⟨hx, rfl⟩
            rw [hvc] at hxp
            rcases List.mem_cons.mp hxp with heq2 | hin
            · have h6 : (strColVals df "day_of_week").count x = p.2 := by
                have := congrArg Prod.snd heq2
                simpa using this
              rw [h6, ← hmem.2]
            · have h6 : (strColVals df "day_of_week").count x ≤ p.2 := hdom _ hin
              rw [hmem.2] at h6
              exact h6
          · rw [List.count_eq_zero_of_not_mem hx]
            exact Nat.zero_le _
        refine ⟨hmem.1, ?_, hmax, ?_⟩
        · rw [hfind]
          simpa using hmem.2
        · rw [hfind]
          simp

/-- Witness for C7 on a table with ties: hours 9 and 11 both occur twice
(9 wins as the smaller index), Tuesday and Monday both occur twice (Tuesday
wins as the head of the descending value_counts order). -/
theorem c7_peak_hour_day_witness :
    reportedPeaks (some df7) = some (9, 2, "Tuesday", 2) ∧
    (9 : Int) ∈ intColVals df7 "hour" ∧
    (valueCounts df7 "day_of_week").head? = some ("Tuesday", 2) :=
  have h := c7_peak_hour_day df7 9 2 "Tuesday" 2 (by decide)
  ⟨by decide, h.1.1, h.2.2.2.2⟩

/-! ### CSV round-trip lemmas -/

theorem forall2_mem_right {α β : Type} {R : α → β → Prop} :
    ∀ {l : List α} {l2 : List β}, List.Forall₂ R l l2 →
      ∀ b ∈ l2, ∃ a ∈ l, R a b := by
  intro l l2 h
  induction h with
  | nil => intro b hb; cases hb
  | cons hR hrest ih =>
    intro b hb
    rcases List.mem_cons.mp hb with heq | hb2
    · subst heq
      exact ⟨_, by simp, hR⟩
    · obtain ⟨a, ha, hab⟩ := ih b hb2
      exact ⟨a, by simp [ha], hab⟩

theorem mem_addCol (cols : List String) (c c2 : String) (h : c ∈ cols) :
    c ∈ addCol cols c2 := by
  unfold addCol
  split
  · exact h
  · exact List.mem_append.mpr (Or.inl h)

theorem rowDerivedOk_spec (r : Row) (h : rowDerivedOk r = true) :
    ∃ t : Timestamp, t.valid = true ∧ getCell r "hitdttm" = some (Val.time t) ∧
      getCell r "hour" = some (Val.int t.hour) ∧
      getCell r "day_of_week" = some (Val.str (dayName t.date)) ∧
      getCell r "date" = some (Val.date t.date) := by
  unfold rowDerivedOk at h
  split at h
  case h_1 t heq =>
    simp only [Bool.and_eq_true, beq_iff_eq] at h
    exact ⟨t, h.1.1.1, heq, h.1.1.2, h.1.2, h.2⟩
  case h_2 => cases h

theorem deriveTime_derivedShape (df0 df : DF) (h : deriveTime df0 = .ok df) :
    derivedShape df = true := by
  unfold deriveTime at h
  split at h
  · rename_i hcols
    split at h
    · rename_i rows hmap
      cases h
      unfold derivedShape
      simp only [Bool.and_eq_true, decide_eq_true_eq, List.all_eq_true]
      constructor
      · exact mem_addCol _ _ _ (mem_addCol _ _ _ (mem_addCol _ _ _ hcols))
      · intro r2 hr2
        obtain ⟨r, _, hder⟩ :=
          forall2_mem_right (mapOption_eq_some_forall2 deriveRow _ _ hmap) r2 hr2
        exact deriveRow_rowDerivedOk r r2 hder
    · cases h
  · cases h

theorem zip_self_map (l : List String) (G : String → Val) :
    l.zip (l.map G) = l.map (fun c => (c, G c)) := by
  have h := List.zip_map' id G l
  simpa using h

theorem getCell_map_pair (l : List String) (G : String → Val) (c : String)
    (hc : c ∈ l) : getCell (l.map (fun x => (x, G x))) c = some (G c) := by
  induction l with
  | nil => cases hc
  | cons a l ih =>
    by_cases h : a = c
    · subst h
      simp [getCell]
    · rcases List.mem_cons.mp hc with heq | hc2
      · exact absurd heq.symm h
      · simp only [List.map_cons, getCell, if_neg h]
        exact ih hc2

theorem mapOption_map_congr {α β γ : Type} (F : β → Option γ) (G : α → Option γ)
    (g : α → β) :
    ∀ l : List α, (∀ a ∈ l, F (g a) = G a) →
      mapOption F (l.map g) = mapOption G l := by
  intro l
  induction l with
  | nil => intro _; rfl
  | cons a l ih =>
    intro h
    simp only [List.map_cons]
    unfold mapOption
    rw [h a (by simp), ih (fun x hx => h x (by simp [hx]))]

/-- Claim C6: every table the Aggregator derives has the derived shape, and
every derived-shape table round-trips through raw_copilot_data.csv — the
reloaded table has the same row count, and re-parsing its timestamp column
(as data_explorer does) reproduces exactly the derived hour, day-of-week and
date values stored before the write; timestamp parsing is idempotent. -/
theorem c6_csv_roundtrip :
    (∀ df0 df, deriveTime df0 = .ok df → derivedShape df = true) ∧
    (∀ df, derivedShape df = true →
      ∃ df2, readCsv (writeCsv df) = some df2 ∧
        df2.rows.length = df.rows.length ∧
        reparsedTriples df2 = storedTriples df ∧
        (storedTriples df).isSome = true) := by
  refine ⟨deriveTime_derivedShape, ?_⟩
  intro df hshape
  unfold derivedShape at hshape
  simp only [Bool.and_eq_true, decide_eq_true_eq, List.all_eq_true] at hshape
  obtain ⟨hcol, hrows⟩ := hshape
  refine ⟨⟨df.cols, (df.rows.map
      (fun r => df.cols.map (fun c => renderCell (getCell r c)))).map
      (fun cells => df.cols.zip (cells.map Val.str))⟩, ?_, by simp, ?_, ?_⟩
  · rfl
  · rw [List.map_map]
    unfold reparsedTriples storedTriples
    dsimp only
    apply mapOption_map_congr
    intro r hr
    obtain ⟨t, hv, hts, hh, hdw, hdt⟩ := rowDerivedOk_spec r (hrows r hr)
    have hrow : ((fun cells => df.cols.zip (cells.map Val.str)) ∘
        (fun r => df.cols.map (fun c => renderCell (getCell r c)))) r =
        df.cols.map (fun c => (c, Val.str (renderCell (getCell r c)))) := by
      dsimp only [Function.comp]
      rw [List.map_map]
      exact zip_self_map _ _
    have hget := getCell_map_pair df.cols
      (fun c => Val.str (renderCell (getCell r c))) "hitdttm" hcol
    rw [hrow, hget]
    simp only [hts, hh, hdw, hdt, renderCell, toDatetime]
    rw [parseTs_renderTs t hv]
  · unfold storedTriples
    obtain ⟨l2, hl2⟩ := mapOption_isSome_of_forall
      (fun r => match getCell r "hour", getCell r "day_of_week", getCell r "date" with
        | some h, some d, some dt => some (h, d, dt)
        | _, _, _ => none) df.rows (fun r hr => by
      obtain ⟨t, hv, hts, hh, hdw, hdt⟩ := rowDerivedOk_spec r (hrows r hr)
      exact ⟨(Val.int t.hour, Val.str (dayName t.date), Val.date t.date), by
        simp only [hh, hdw, hdt]⟩)
    rw [hl2]
    rfl

/-- Witness for C6 on a concrete derived-shape table. -/
theorem c6_csv_roundtrip_witness :
    derivedShape df6 = true ∧
    ∃ df2, readCsv (writeCsv df6) = some df2 ∧
      df2.rows.length = df6.rows.length ∧
      reparsedTriples df2 = storedTriples df6 ∧
      (storedTriples df6).isSome = true :=
  ⟨by decide, c6_csv_roundtrip.2 df6 (by decide)⟩

/-! ### Per-user aggregation lemmas -/

theorem strColVals_mem (df : DF) (c : String) (u : String) :
    u ∈ strColVals df c ↔ ∃ r ∈ df.rows, getCell r c = some (Val.str u) := by
  unfold strColVals
  rw [List.mem_filterMap]
  constructor
  · rintro ⟨r, hr, hm⟩
    refine ⟨r, hr, ?_⟩
    split at hm
    · rename_i s heq
      cases hm
      exact heq
    · cases hm
  · rintro ⟨r, hr, hm⟩
    refine ⟨r, hr, ?_⟩
    rw [hm]

theorem goodRow_spec (r : Row) (h : goodRow r = true) :
    (∃ t : Timestamp, t.valid = true ∧ getCell r "hitdttm" = some (Val.time t)) ∧
    (∃ s, getCell r "user_login" = some (Val.str s)) ∧
    (∃ n, getCell r "lines" = some (Val.int n)) ∧
    (∃ n, getCell r "chars" = some (Val.int n)) := by
  unfold goodRow at h
  simp only [Bool.and_eq_true] at h
  obtain ⟨⟨⟨h1, h2⟩, h3⟩, h4⟩ := h
  refine ⟨?_, ?_, ?_, ?_⟩
  · split at h1
    · rename_i t heq
      exact ⟨t, h1, heq⟩
    · cases h1
  · split at h2
    · rename_i s heq
      exact ⟨s, heq⟩
    · cases h2
  · split at h3
    · rename_i n heq
      exact ⟨n, heq⟩
    · cases h3
  · split at h4
    · rename_i n heq
      exact ⟨n, heq⟩
    · cases h4

theorem filterMap_length_all {α β : Type} (F : α → Option β) :
    ∀ l : List α, (∀ a ∈ l, ∃ b, F a = some b) →
      (l.filterMap F).length = l.length := by
  intro l
  induction l with
  | nil => intro _; rfl
  | cons a l ih =>
    intro h
    obtain ⟨b, hb⟩ := h a (by simp)
    rw [List.filterMap_cons, hb]
    simp only [List.length_cons]
    rw [ih (fun x hx => h x (by simp [hx]))]

theorem minTs_isSome (ts : List Timestamp) (h : ts ≠ []) :
    ∃ m, minTs ts = some m := by
  cases ts with
  | nil => exact absurd rfl h
  | cons t rest => exact ⟨_, rfl⟩

theorem maxTs_isSome (ts : List Timestamp) (h : ts ≠ []) :
    ∃ m, maxTs ts = some m := by
  cases ts with
  | nil => exact absurd rfl h
  | cons t rest => exact ⟨_, rfl⟩

/-- Claim C10: under the columns the export references unconditionally, the
per-user summary has exactly one row per distinct user (its key list is the
sorted distinct users, without duplicates, covering exactly the users seen
in the table), and each row carries the user's interaction count, earliest
and latest timestamp, summed lines and chars, and a most-frequent language
('unknown' when the user has no language values); export_detailed_data
writes exactly this table. -/
theorem c10_user_activity_summary (df : DF)
    (hu : "user_login" ∈ df.cols)
    (hm : missingAggCols df = [])
    (hg : df.rows.all goodRow = true) :
    ((userActivitySummary df).map (fun a => a.user) = sortedUsers df) ∧
    (sortedUsers df).Nodup ∧
    (∀ u, u ∈ sortedUsers df ↔ u ∈ strColVals df "user_login") ∧
    (∀ u ∈ sortedUsers df,
      (aggUser df u).total_interactions = (rowsOfUser df u).length ∧
      (∃ t0, (aggUser df u).first_interaction = some t0 ∧
        t0 ∈ rowTimes (rowsOfUser df u) ∧
        ∀ t ∈ rowTimes (rowsOfUser df u), tsVal t0 ≤ tsVal t) ∧
      (∃ t1, (aggUser df u).last_interaction = some t1 ∧
        t1 ∈ rowTimes (rowsOfUser df u) ∧
        ∀ t ∈ rowTimes (rowsOfUser df u), tsVal t ≤ tsVal t1) ∧
      (aggUser df u).total_lines = (rowInts (rowsOfUser df u) "lines").sum ∧
      (aggUser df u).total_chars = (rowInts (rowsOfUser df u) "chars").sum ∧
      ((rowStrs (rowsOfUser df u) "language" = [] →
        (aggUser df u).primary_language = "unknown") ∧
       (rowStrs (rowsOfUser df u) "language" ≠ [] →
        (aggUser df u).primary_language ∈ rowStrs (rowsOfUser df u) "language" ∧
        ∀ v, (rowStrs (rowsOfUser df u) "language").count v ≤
          (rowStrs (rowsOfUser df u) "language").count
            (aggUser df u).primary_language))) ∧
    (df.rows ≠ [] → (exportDetailedData (some df)).userSummary =
      some (userActivitySummary df)) := by
  have hgood : ∀ r ∈ df.rows, goodRow r = true := List.all_eq_true.mp hg
  have hmemiff : ∀ u, u ∈ sortedUsers df ↔ u ∈ strColVals df "user_login" := by
    intro u
    unfold sortedUsers
    rw [(List.perm_insertionSort _ _).mem_iff, mem_firstDedup]
  refine ⟨?_, ?_, hmemiff, ?_, ?_⟩
  · unfold userActivitySummary
    rw [List.map_map]
    have hid : ((fun a : UserRow => a.user) ∘ aggUser df) = id := rfl
    rw [hid, List.map_id]
  · unfold sortedUsers
    exact ((List.perm_insertionSort _ _).nodup_iff).mpr (nodup_firstDedup _)
  · intro u hu2
    have husr := (hmemiff u).mp hu2
    obtain ⟨r0, hr0, hcell0⟩ := (strColVals_mem df "user_login" u).mp husr
    have hr0u : r0 ∈ rowsOfUser df u := by
      unfold rowsOfUser
      rw [List.mem_filter]
      exact ⟨hr0, by simp [hcell0]⟩
    have hrsgood : ∀ r ∈ rowsOfUser df u, goodRow r = true := by
      intro r hr
      exact hgood r (List.mem_filter.mp hr).1
    have htimes : ∀ r ∈ rowsOfUser df u, ∃ t,
        (match getCell r "hitdttm" with
         | some (Val.time t) => some t
         | _ => none) = some t := by
      intro r hr
      obtain ⟨⟨t, _, hts⟩, _, _, _⟩ := goodRow_spec r (hrsgood r hr)
      exact ⟨t, by rw [hts]⟩
    have hlen : (rowTimes (rowsOfUser df u)).length = (rowsOfUser df u).length :=
      filterMap_length_all _ _ htimes
    have htne : rowTimes (rowsOfUser df u) ≠ [] := by
      obtain ⟨t0, ht0⟩ := htimes r0 hr0u
      intro hc
      have : t0 ∈ rowTimes (rowsOfUser df u) :=
        List.mem_filterMap.mpr ⟨r0, hr0u, ht0⟩
      rw [hc] at this
      cases this
    obtain ⟨m1, hm1⟩ := minTs_isSome _ htne
    obtain ⟨m2, hm2⟩ := maxTs_isSome _ htne
    have hminspec := minTs_spec _ _ hm1
    have hmaxspec := maxTs_spec _ _ hm2
    refine ⟨hlen, ⟨m1, hm1, hminspec.1, hminspec.2⟩,
      ⟨m2, hm2, hmaxspec.1, hmaxspec.2⟩, rfl, rfl, ?_, ?_⟩
    · intro hls
      show modeOrUnknown (rowStrs (rowsOfUser df u) "language") = "unknown"
      rw [hls]
      rfl
    · intro hls
      obtain ⟨m, hmode⟩ := modeMin_isSome _ hls
      have hspec := modeMin_spec _ _ hmode
      have hpl : (aggUser df u).primary_language = m := by
        show modeOrUnknown (rowStrs (rowsOfUser df u) "language") = m
        unfold modeOrUnknown
        rw [hmode]
        rfl
      rw [hpl]
      exact ⟨hspec.1, hspec.2⟩
  · intro hne
    simp only [exportDetailedData]
    have h1 : ¬ (df.rows.isEmpty = true) := by
      simpa [List.isEmpty_iff] using hne
    rw [if_neg h1, if_neg (by simp [hu]), if_neg (by simp [hm])]
    split
    · rfl
    · rfl

/-- Witness for C10 on a concrete three-row, two-user table. -/
theorem c10_user_activity_summary_witness :
    ("user_login" ∈ df10.cols ∧ missingAggCols df10 = [] ∧
      df10.rows.all goodRow = true) ∧
    (userActivitySummary df10).map (fun a => a.user) = sortedUsers df10 :=
  ⟨⟨by decide, by decide, by decide⟩,
   (c10_user_activity_summary df10 (by decide) (by decide) (by decide)).1⟩

/-! ### Concatenation and collection lemmas -/

theorem unionCols_nil_left (S : List String) : unionCols [] S = S := by
  unfold unionCols
  simp

theorem unionCols_self (S : List String) : unionCols S S = S := by
  unfold unionCols
  rw [List.filter_eq_nil_iff.mpr (fun c hc => by simp [hc])]
  simp

theorem foldl_unionCols_const (S : List String) :
    ∀ dfs : List DF, (∀ d ∈ dfs, d.cols = S) →
      dfs.foldl (fun acc d => unionCols acc d.cols) S = S := by
  intro dfs
  induction dfs with
  | nil => intro _; rfl
  | cons d ds ih =>
    intro h
    rw [List.foldl_cons, h d (by simp), unionCols_self]
    exact ih (fun x hx => h x (by simp [hx]))

theorem concatDFs_cols (dfs : List DF) (S : List String) (hne : dfs ≠ [])
    (h : ∀ d ∈ dfs, d.cols = S) : (concatDFs dfs).cols = S := by
  cases dfs with
  | nil => exact absurd rfl hne
  | cons d ds =>
    show (d :: ds).foldl (fun acc d => unionCols acc d.cols) [] = S
    rw [List.foldl_cons, unionCols_nil_left, h d (by simp)]
    exact foldl_unionCols_const S ds (fun x hx => h x (by simp [hx]))

theorem goodRow_deriveRow (r : Row) (h : goodRow r = true) :
    ∃ r2, deriveRow r = some r2 := by
  obtain ⟨⟨t, hv, hts⟩, -, -, -⟩ := goodRow_spec r h
  have htd : toDatetime (Val.time t) = some t := by
    simp [toDatetime, hv]
  exact ⟨setCell (setCell (setCell (setCell r "hitdttm" (Val.time t)) "hour"
      (Val.int t.hour)) "day_of_week" (Val.str (dayName t.date))) "date"
      (Val.date t.date), by simp only [deriveRow, hts, htd]⟩

theorem idxmax_isSome {κ : Type} (l : List (κ × Nat)) (h : l ≠ []) :
    ∃ k, idxmax l = some k := by
  cases l with
  | nil => exact absurd rfl h
  | cons p rest => exact ⟨_, rfl⟩

theorem insertionSort_ne_nil {α : Type} (r : α → α → Prop) [DecidableRel r]
    (l : List α) (h : l ≠ []) : l.insertionSort r ≠ [] := by
  intro hc
  have := (List.perm_insertionSort r l).length_eq
  rw [hc] at this
  cases l with
  | nil => exact h rfl
  | cons a l2 => simp at this

theorem firstDedup_ne_nil {α : Type} [DecidableEq α] (l : List α) (h : l ≠ []) :
    firstDedup l ≠ [] := by
  cases l with
  | nil => exact absurd rfl h
  | cons a l2 =>
    intro hc
    have : a ∈ firstDedup (a :: l2) := (mem_firstDedup _ _).mpr (by simp)
    rw [hc] at this
    cases this

theorem groupSizesAsc_ne_nil (df : DF) (c : String) (h : intColVals df c ≠ []) :
    groupSizesAsc df c ≠ [] := by
  unfold groupSizesAsc
  apply insertionSort_ne_nil
  simp only [ne_eq, List.map_eq_nil_iff]
  exact firstDedup_ne_nil _ h

theorem valueCounts_ne_nil (df : DF) (c : String) (h : strColVals df c ≠ []) :
    valueCounts df c ≠ [] := by
  unfold valueCounts countsDesc
  apply insertionSort_ne_nil
  simp only [ne_eq, List.map_eq_nil_iff]
  exact firstDedup_ne_nil _ h

theorem mem_blobEvents_error (w : World) (entries : List ManifestEntry) (u : Nat)
    (hu : u ∈ manifestUris entries) (msg : String)
    (herr : w.blobs u = .error msg) :
    Event.logBlobError u ∈ blobEvents w entries := by
  unfold blobEvents
  rw [List.mem_flatMap]
  refine ⟨u, hu, ?_⟩
  rw [herr]
  simp

/-- Claim C2: with at least one blob fetching successfully and every
successful chunk well-formed, each failing blob is logged and skipped, the
aggregate is exactly the concatenation of the successful chunks' rows in
original fetch order with no deduplication (each aggregate row is the
derived image of the corresponding fetched row), collect_data returns True,
and the run continues to completion with exit status Ok true. -/
theorem c2_blob_failures_skipped (w : World) (entries : List ManifestEntry)
    (hval : validateDateRange w.since w.untilStr w.now = .ok ())
    (hprobe : w.probeOk = true)
    (hman : w.manifest = .ok entries)
    (hgood : ∀ d ∈ successChunks w entries, goodChunk d = true)
    (hne : successChunks w entries ≠ []) :
    (∀ u ∈ manifestUris entries, (∃ msg, w.blobs u = .error msg) →
      Event.logBlobError u ∈ (collectData w).events) ∧
    (concatDFs (successChunks w entries)).rows =
      (successChunks w entries).flatMap (fun d => d.rows) ∧
    (∃ df2, (collectData w).df = some df2 ∧ (collectData w).ok = true ∧
      List.Forall₂ (fun r0 r => deriveRow r0 = some r)
        ((successChunks w entries).flatMap (fun d => d.rows)) df2.rows ∧
      df2.rows.length =
        ((successChunks w entries).flatMap (fun d => d.rows)).length) ∧
    (runCompleteAnalysis w).result = .ok true := by
  obtain ⟨d, ds, hdfs⟩ : ∃ d ds, successChunks w entries = d :: ds := by
    cases h : successChunks w entries with
    | nil => exact absurd h hne
    | cons d ds => exact ⟨d, ds, rfl⟩
  have hallgood : ∀ r ∈ (successChunks w entries).flatMap (fun d => d.rows),
      goodRow r = true := by
    intro r hr
    obtain ⟨d2, hd2, hrd⟩ := List.mem_flatMap.mp hr
    have h2 := hgood d2 hd2
    unfold goodChunk at h2
    simp only [Bool.and_eq_true, beq_iff_eq, List.all_eq_true] at h2
    exact h2.2 r hrd
  have hcolsS : (concatDFs (successChunks w entries)).cols = chunkSchema := by
    apply concatDFs_cols _ _ hne
    intro d2 hd2
    have h2 := hgood d2 hd2
    unfold goodChunk at h2
    simp only [Bool.and_eq_true, beq_iff_eq, List.all_eq_true] at h2
    exact h2.1
  have hsome : ∀ r ∈ (concatDFs (successChunks w entries)).rows,
      ∃ r2, deriveRow r = some r2 := fun r hr => goodRow_deriveRow r (hallgood r hr)
  obtain ⟨rows2, hmap⟩ := mapOption_isSome_of_forall deriveRow _ hsome
  have hf2 := mapOption_eq_some_forall2 deriveRow _ _ hmap
  have hder : deriveTime (concatDFs (successChunks w entries)) = .ok
      ⟨["hitdttm", "user_login", "language", "lines", "chars", "hour",
        "day_of_week", "date"], rows2⟩ := by
    unfold deriveTime
    rw [if_pos (by rw [hcolsS]; decide), hmap, hcolsS]
    rfl
  have hrowsOk : ∀ r2 ∈ rows2, rowDerivedOk r2 = true := by
    intro r2 hr2
    obtain ⟨r, -, hder2⟩ := forall2_mem_right hf2 r2 hr2
    exact deriveRow_rowDerivedOk r r2 hder2
  rw [hdfs] at hder
  have hcd : collectData w = ⟨some ⟨["hitdttm", "user_login", "language",
      "lines", "chars", "hour", "day_of_week", "date"], rows2⟩, true, none,
      (Event.netProbe :: Event.netManifest :: blobEvents w entries) ++
        [Event.fileWrite "data/raw_copilot_data.csv"]⟩ := by
    unfold collectData
    simp only [hval, hprobe, if_true, hman, hdfs]
    rw [hder]
    rfl
  have hrep : ∃ ro, generateSummaryReport (some ⟨["hitdttm", "user_login",
      "language", "lines", "chars", "hour", "day_of_week", "date"], rows2⟩) =
      .ok ro := by
    by_cases hre : rows2.isEmpty = true
    · refine ⟨none, ?_⟩
      simp only [generateSummaryReport]
      rw [if_pos hre]
    · obtain ⟨r2, hr2⟩ : ∃ r2, r2 ∈ rows2 := by
        cases h2 : rows2 with
        | nil =>
          rw [h2] at hre
          exact absurd rfl hre
        | cons a l => exact ⟨a, by simp⟩
      obtain ⟨t, hv, hts, hh, hdw, hdt⟩ := rowDerivedOk_spec r2 (hrowsOk r2 hr2)
      have hhour : (t.hour : Int) ∈ intColVals ⟨["hitdttm", "user_login",
          "language", "lines", "chars", "hour", "day_of_week", "date"], rows2⟩
          "hour" := List.mem_filterMap.mpr ⟨r2, hr2, by simp only [hh]⟩
      have hdow : dayName t.date ∈ strColVals ⟨["hitdttm", "user_login",
          "language", "lines", "chars", "hour", "day_of_week", "date"], rows2⟩
          "day_of_week" := List.mem_filterMap.mpr ⟨r2, hr2, by simp only [hdw]⟩
      have hn1 : intColVals ⟨["hitdttm", "user_login", "language", "lines",
          "chars", "hour", "day_of_week", "date"], rows2⟩ "hour" ≠ [] := by
        intro hc
        rw [hc] at hhour
        cases hhour
      have hn2 : strColVals ⟨["hitdttm", "user_login", "language", "lines",
          "chars", "hour", "day_of_week", "date"], rows2⟩ "day_of_week" ≠ [] := by
        intro hc
        rw [hc] at hdow
        cases hdow
      obtain ⟨ph, hph⟩ := idxmax_isSome _ (groupSizesAsc_ne_nil _ _ hn1)
      obtain ⟨pd, hpd⟩ := idxmax_isSome _ (valueCounts_ne_nil _ _ hn2)
      refine ⟨some (buildReport ⟨["hitdttm", "user_login", "language", "lines",
        "chars", "hour", "day_of_week", "date"], rows2⟩ ph pd), ?_⟩
      simp only [generateSummaryReport]
      rw [if_neg hre, if_neg (by simp), if_neg (by simp), if_neg (by simp),
        if_neg (by simp), hph, hpd]
  have hviz : ∃ ev, createVisualizations (some ⟨["hitdttm", "user_login",
      "language", "lines", "chars", "hour", "day_of_week", "date"], rows2⟩) =
      .ok ev := by
    by_cases hre : rows2.isEmpty = true
    · refine ⟨[], ?_⟩
      simp only [createVisualizations]
      rw [if_pos hre]
    · refine ⟨[Event.fileWrite "plots/user_engagement.png",
        Event.fileWrite "plots/feature_usage.png",
        Event.fileWrite "plots/language_analysis.png",
        Event.fileWrite "plots/time_patterns.png",
        Event.fileWrite "plots/environment_analysis.png"], ?_⟩
      simp only [createVisualizations]
      rw [if_neg hre, if_neg (by simp), if_neg (by simp), if_neg (by simp),
        if_neg (by simp)]
      rfl
  have hexp : (exportDetailedData (some ⟨["hitdttm", "user_login", "language",
      "lines", "chars", "hour", "day_of_week", "date"], rows2⟩)).err = none := by
    by_cases hre : rows2.isEmpty = true
    · simp only [exportDetailedData]
      rw [if_pos hre]
    · have hmiss : missingAggCols ⟨["hitdttm", "user_login", "language",
          "lines", "chars", "hour", "day_of_week", "date"], rows2⟩ = [] := rfl
      simp only [exportDetailedData]
      rw [if_neg hre, if_neg (by simp), if_neg (by simp [hmiss]), if_neg (by simp)]
  refine ⟨?_, rfl, ?_, ?_⟩
  · intro u hu hub
    obtain ⟨msg, hmsg⟩ := hub
    rw [hcd]
    simp only [List.mem_append, List.mem_cons]
    exact Or.inl (Or.inr (Or.inr (mem_blobEvents_error w entries u hu msg hmsg)))
  · refine ⟨⟨["hitdttm", "user_login", "language", "lines", "chars", "hour",
      "day_of_week", "date"], rows2⟩, by rw [hcd], by rw [hcd], hf2,
      (List.Forall₂.length_eq hf2).symm⟩
  · obtain ⟨ro, hro⟩ := hrep
    obtain ⟨ev, hev⟩ := hviz
    unfold runCompleteAnalysis
    rw [hcd]
    dsimp only [reporterStep, vizStep, exportStep]
    rw [hro]
    cases ro with
    | none =>
      rw [hev]
      dsimp only
      rw [hexp]
      rfl
    | some rep =>
      rw [hev]
      dsimp only
      rw [hexp]
      rfl

/-- Witness for C2: two blob URIs, the second failing — the failure is
logged, and the run completes successfully on the surviving chunk. -/
theorem c2_blob_failures_skipped_witness :
    Event.logBlobError 1 ∈ (collectData w2).events ∧
    (runCompleteAnalysis w2).result = .ok true :=
  have h := c2_blob_failures_skipped w2 [⟨"2025-06-02", [0, 1]⟩] (by decide)
    (by decide) (by decide) (by decide) (by decide)
  ⟨h.1 1 (by decide) ⟨"network", by decide⟩, h.2.2.2⟩
